import Mathlib

/-! gostat: an in-process metrics aggregator.

A shallow embedding of `gostat.go`.

* Go maps `map[string]V` are finite association lists with distinct keys (`GoMap V`).
  A `range` loop over a map visits every entry exactly once in an unspecified order, so
  every loop takes the visiting order as an explicit argument (`rangeOrder`).
* `int64` and `time.Duration` are integers; every addition the program performs is
  followed by the two's-complement wrap `wrap64`.
* `time.Time` is an instant on an integer nanosecond time line and the clock is an explicit
  input wherever the program calls `time.Now` or `time.Since`.
* `panic`, a failed type assertion and a send on a nil channel are the `Fault` outcomes
  of `Except Fault`.
* The buffered channel `cmdCh` is the FIFO list of commands sent and not yet received.
-/

namespace gostat

/-! ## Machine integers, durations and instants -/

/-- Smallest `int64`, also the smallest `time.Duration`. -/
def minInt64 : Int := -9223372036854775808

/-- Largest `int64`, also the largest `time.Duration`. -/
def maxInt64 : Int := 9223372036854775807

/-- Membership in the `int64` range. -/
def inInt64 (x : Int) : Prop := minInt64 ≤ x ∧ x ≤ maxInt64

instance (x : Int) : Decidable (inInt64 x) := by
  unfold inInt64
  exact inferInstance

/-- Two's-complement reduction of an integer to the `int64` range. -/
def wrap64 (x : Int) : Int :=
  (x + 9223372036854775808) % 18446744073709551616 - 9223372036854775808

/-- Go's `+` on `int64` and on `time.Duration`: addition that wraps around. -/
def add64 (a b : Int) : Int := wrap64 (a + b)

/-- An instant (`time.Time`), in nanoseconds on an integer time line. -/
abbrev time.Time := Int

/-- A `time.Duration`: a signed 64-bit count of nanoseconds. -/
abbrev time.Duration := Int

/-- The method `Time.Sub` of the standard library: the difference `t - u`, replaced by
the largest (smallest) duration when it does not fit a `time.Duration`. -/
def time.Sub (t u : time.Time) : time.Duration :=
  if t - u < minInt64 then minInt64
  else if maxInt64 < t - u then maxInt64
  else t - u

/-- The function `time.Since(t)`, which is `time.Now().Sub(t)`; `now` is the clock reading. -/
def time.Since (now t : time.Time) : time.Duration := time.Sub now t

/-! ## Maps -/

/-- A Go `map[string]V`. -/
abbrev GoMap (V : Type) := AList (fun _ : String => V)

/-- An entry of a `map[string]V`, as a `range` loop yields it. -/
abbrev Entry (V : Type) := Sigma (fun _ : String => V)

/-- The orders in which a `range` loop may visit a map: each entry exactly once. -/
def rangeOrder {V : Type} (m : GoMap V) (order : List (Entry V)) : Prop :=
  order.Perm m.entries

instance {V : Type} [DecidableEq V] (m : GoMap V) (order : List (Entry V)) :
    Decidable (rangeOrder m order) := by
  unfold rangeOrder
  exact inferInstance

/-! ## Commands and state -/

/-- The command kinds, `cmdType`. -/
inductive cmdType where
  | cmdDurationBegin
  | cmdDurationEnd
  | cmdAddCount
  | cmdGetCount
  | cmdGetDuration
  | cmdAddDuration
  | cmdEndSession
  deriving DecidableEq

/-- The dynamic values (`interface{}`) that travel in a command or in a reply. -/
inductive AnyValue where
  | nil
  | time (t : time.Time)
  | duration (d : time.Duration)
  | int64 (n : Int)
  deriving DecidableEq

/-- The struct `statCommand`. `ResultCh` is `true` when a reply channel is attached and
`false` for the nil channel. -/
structure statCommand where
  CmdType : cmdType
  Key : String
  Value : AnyValue
  ResultCh : Bool
  deriving DecidableEq

/-- The ways the worker (or a session call) stops for good. -/
inductive Fault where
  | panic (msg : String)
  | typeAssertion
  | nilChannel
  deriving DecidableEq

/-- The struct `GoStat`; `cmdCh` holds the commands sent and not yet received, oldest first. -/
structure GoStat where
  durationStat : GoMap time.Duration
  tmpDuration : GoMap time.Time
  countStat : GoMap Int
  cmdCh : List statCommand

/-- The struct `statSession`; `stat` is the aggregator the session points to. -/
structure statSession where
  stat : GoStat
  tmpDurationBegin : GoMap time.Time
  duration : GoMap time.Duration
  count : GoMap Int

/-! ## Map helpers -/

/-- The function `addTimeToMap`: panic when `k` is present, else store `t`. -/
def addTimeToMap (m : GoMap time.Time) (k : String) (t : time.Time) :
    Except Fault (GoMap time.Time) :=
  match m.lookup k with
  | some _ => .error (.panic ("Key " ++ k ++ " is already in the map"))
  | none => .ok (m.insert k t)

/-- The function `getDurationFromMap`: panic when `k` is absent, else delete `k` and
return `t.Sub(t1)`. -/
def getDurationFromMap (m : GoMap time.Time) (k : String) (t : time.Time) :
    Except Fault (GoMap time.Time × time.Duration) :=
  match m.lookup k with
  | none => .error (.panic ("Key " ++ k ++ " is not in the map"))
  | some t1 => .ok (m.erase k, time.Sub t t1)

/-- The function `addDurationToMap`. -/
def addDurationToMap (m : GoMap time.Duration) (k : String) (d : time.Duration) :
    GoMap time.Duration :=
  let sumDuration := (m.lookup k).getD 0
  m.insert k (add64 sumDuration d)

/-- The function `addCountToMap`; a missing key reads as the zero value. -/
def addCountToMap (m : GoMap Int) (k : String) (count : Int) : GoMap Int :=
  let sum := (m.lookup k).getD 0
  m.insert k (add64 sum count)

/-! ## The aggregator -/

/-- The constructor `NewStat`: empty maps and an empty channel. -/
def NewStat : GoStat :=
  { durationStat := ∅, tmpDuration := ∅, countStat := ∅, cmdCh := [] }

/-- The handler `cmdAddDuration`. -/
def GoStat.cmdAddDuration (g : GoStat) (cmd : statCommand) : Except Fault GoStat :=
  let val := (g.durationStat.lookup cmd.Key).getD 0
  match cmd.Value with
  | .duration d => .ok { g with durationStat := g.durationStat.insert cmd.Key (add64 val d) }
  | _ => .error .typeAssertion

/-- The handler `cmdGetDuration`: the value it sends on `cmd.ResultCh`. -/
def GoStat.cmdGetDuration (g : GoStat) (cmd : statCommand) : Except Fault AnyValue :=
  let val := (g.durationStat.lookup cmd.Key).getD 0
  if cmd.ResultCh then .ok (.duration val) else .error .nilChannel

/-- The handler `cmdGetCount`: the value it sends on `cmd.ResultCh`. -/
def GoStat.cmdGetCount (g : GoStat) (cmd : statCommand) : Except Fault AnyValue :=
  let val := (g.countStat.lookup cmd.Key).getD 0
  if cmd.ResultCh then .ok (.int64 val) else .error .nilChannel

/-- The handler `cmdDurationBegin`. -/
def GoStat.cmdDurationBegin (g : GoStat) (cmd : statCommand) : Except Fault GoStat :=
  match g.tmpDuration.lookup cmd.Key with
  | some _ => .error (.panic ("Duplicate duration start for key " ++ cmd.Key))
  | none =>
    match cmd.Value with
    | .time t => .ok { g with tmpDuration := g.tmpDuration.insert cmd.Key t }
    | _ => .error .typeAssertion

/-- The handler `cmdDurationEnd`; `now` is the clock reading of its `time.Since`.
The handler leaves `tmpDuration` as it is. -/
def GoStat.cmdDurationEnd (g : GoStat) (now : time.Time) (cmd : statCommand) :
    Except Fault GoStat :=
  match g.tmpDuration.lookup cmd.Key with
  | none => .error (.panic ("Daling duration end for key " ++ cmd.Key))
  | some durationBegin =>
    let duration := time.Since now durationBegin
    let durationSum := (g.durationStat.lookup cmd.Key).getD 0
    .ok { g with durationStat := g.durationStat.insert cmd.Key (add64 durationSum duration) }

/-- The handler `cmdAddCount`. -/
def GoStat.cmdAddCount (g : GoStat) (cmd : statCommand) : Except Fault GoStat :=
  let sumCnt := (g.countStat.lookup cmd.Key).getD 0
  match cmd.Value with
  | .int64 n => .ok { g with countStat := g.countStat.insert cmd.Key (add64 sumCnt n) }
  | _ => .error .typeAssertion

/-- The `switch` of the worker loop in `start`: the new state and the reply sent, if any.
The kind `cmdEndSession` has no case and is ignored. -/
def GoStat.dispatch (g : GoStat) (now : time.Time) (cmd : statCommand) :
    Except Fault (GoStat × Option AnyValue) :=
  match cmd.CmdType with
  | .cmdDurationBegin => (g.cmdDurationBegin cmd).map (fun g1 => (g1, none))
  | .cmdDurationEnd => (g.cmdDurationEnd now cmd).map (fun g1 => (g1, none))
  | .cmdAddCount => (g.cmdAddCount cmd).map (fun g1 => (g1, none))
  | .cmdGetCount => (g.cmdGetCount cmd).map (fun v => (g, some v))
  | .cmdGetDuration => (g.cmdGetDuration cmd).map (fun v => (g, some v))
  | .cmdAddDuration => (g.cmdAddDuration cmd).map (fun g1 => (g1, none))
  | .cmdEndSession => .ok (g, none)

/-- The worker loop of `start`: it receives the queued commands oldest first and
dispatches each; `nows` lists the clock readings of the successive iterations. The loop
waits when the channel is empty and stops at the first fault. -/
def GoStat.start (g : GoStat) : List time.Time → Except Fault GoStat
  | [] => .ok g
  | now :: nows =>
    match g.cmdCh with
    | [] => .ok g
    | cmd :: rest =>
      match GoStat.dispatch { g with cmdCh := rest } now cmd with
      | .error e => .error e
      | .ok (g1, _) => GoStat.start g1 nows

/-- Sending a command on `cmdCh`. -/
def GoStat.send (g : GoStat) (cmd : statCommand) : GoStat :=
  { g with cmdCh := g.cmdCh ++ [cmd] }

/-- The method `GoStat.DurationBegin`; `now` is the reading of `time.Now()` at the call. -/
def GoStat.DurationBegin (g : GoStat) (now : time.Time) (key : String) : GoStat :=
  g.send { CmdType := .cmdDurationBegin, Key := key, Value := .time now, ResultCh := false }

/-- The method `GoStat.DurationEnd`. -/
def GoStat.DurationEnd (g : GoStat) (key : String) : GoStat :=
  g.send { CmdType := .cmdDurationEnd, Key := key, Value := .nil, ResultCh := false }

/-- The method `GoStat.AddCount`. -/
def GoStat.AddCount (g : GoStat) (key : String) (value : Int) : GoStat :=
  g.send { CmdType := .cmdAddCount, Key := key, Value := .int64 value, ResultCh := false }

/-- The method `GoStat.AddDruation` (spelled as in the source). -/
def GoStat.AddDruation (g : GoStat) (key : String) (value : time.Duration) : GoStat :=
  g.send { CmdType := .cmdAddDuration, Key := key, Value := .duration value, ResultCh := false }

/-- The method `GoStat.GetCount`, for a caller whose command the worker receives in
state `g` (everything sent earlier has been handled): the reply asserted to `int64`. -/
def GoStat.GetCount (g : GoStat) (now : time.Time) (key : String) : Except Fault Int :=
  match g.dispatch now { CmdType := .cmdGetCount, Key := key, Value := .nil, ResultCh := true } with
  | .error e => .error e
  | .ok (_, some (.int64 n)) => .ok n
  | .ok _ => .error .typeAssertion

/-- The method `GoStat.GetDuration`, for a caller whose command the worker receives in
state `g`: the reply asserted to `time.Duration`. -/
def GoStat.GetDuration (g : GoStat) (now : time.Time) (key : String) :
    Except Fault time.Duration :=
  match g.dispatch now
      { CmdType := .cmdGetDuration, Key := key, Value := .nil, ResultCh := true } with
  | .error e => .error e
  | .ok (_, some (.duration d)) => .ok d
  | .ok _ => .error .typeAssertion

/-! ## Sessions -/

/-- The method `NewSession`: a session with empty local maps, bound to `g`. -/
def GoStat.NewSession (g : GoStat) : statSession :=
  { stat := g, duration := ∅, count := ∅, tmpDurationBegin := ∅ }

/-- The method `statSession.DurationBegin`; `now` is the reading of `time.Now()`. -/
def statSession.DurationBegin (s : statSession) (now : time.Time) (key : String) :
    Except Fault statSession :=
  match addTimeToMap s.tmpDurationBegin key now with
  | .error e => .error e
  | .ok m => .ok { s with tmpDurationBegin := m }

/-- The method `statSession.DurationEnd`; `now` is the reading of `time.Now()`. -/
def statSession.DurationEnd (s : statSession) (now : time.Time) (key : String) :
    Except Fault statSession :=
  match getDurationFromMap s.tmpDurationBegin key now with
  | .error e => .error e
  | .ok (m, d) => .ok { s with tmpDurationBegin := m, duration := addDurationToMap s.duration key d }

/-- The method `statSession.AddCount`. -/
def statSession.AddCount (s : statSession) (key : String) (count : Int) : statSession :=
  { s with count := addCountToMap s.count key count }

/-- The method `statSession.finishDurations`: the loop visits the open entries in the
order `order`, and `clock k` is the clock reading of `time.Since` when it visits `k`. -/
def statSession.finishDurations (s : statSession) (order : List (Entry time.Time))
    (clock : String → time.Time) : statSession :=
  { s with duration :=
      order.foldl (fun m e => addDurationToMap m e.1 (time.Since (clock e.1) e.2)) s.duration }

/-- The method `statSession.End` (its printed line left out): `oOpen`, `oDur` and `oCnt`
are the visiting orders of its three `range` loops. -/
def statSession.End (s : statSession) (oOpen : List (Entry time.Time))
    (clock : String → time.Time) (oDur : List (Entry time.Duration))
    (oCnt : List (Entry Int)) : statSession :=
  let s1 := s.finishDurations oOpen clock
  let g1 := oDur.foldl (fun g e => g.AddDruation e.1 e.2) s1.stat
  let g2 := oCnt.foldl (fun g e => g.AddCount e.1 e.2) g1
  { s1 with stat := g2 }

/-- The visiting orders that a run of `End` on `s` can have: the first loop ranges over
the open map, the second over the duration map as the first loop left it, the third over
the count map. -/
def statSession.EndOrders (s : statSession) (oOpen : List (Entry time.Time))
    (clock : String → time.Time) (oDur : List (Entry time.Duration))
    (oCnt : List (Entry Int)) : Prop :=
  rangeOrder s.tmpDurationBegin oOpen ∧
  rangeOrder (s.finishDurations oOpen clock).duration oDur ∧
  rangeOrder s.count oCnt

instance (s : statSession) (oOpen : List (Entry time.Time)) (clock : String → time.Time)
    (oDur : List (Entry time.Duration)) (oCnt : List (Entry Int)) :
    Decidable (s.EndOrders oOpen clock oDur oCnt) := by
  unfold statSession.EndOrders
  exact inferInstance

/-- A call of one of the three recording methods of a session, with the clock reading
of the call where the method reads the clock. -/
inductive sessionCall where
  | DurationBegin (now : time.Time) (key : String)
  | DurationEnd (now : time.Time) (key : String)
  | AddCount (key : String) (count : Int)

/-- One recording call on a session. -/
def statSession.call (s : statSession) : sessionCall → Except Fault statSession
  | .DurationBegin now key => s.DurationBegin now key
  | .DurationEnd now key => s.DurationEnd now key
  | .AddCount key count => .ok (s.AddCount key count)

/-- A sequence of recording calls on a session, stopping at the first panic. -/
def statSession.calls (s : statSession) : List sessionCall → Except Fault statSession
  | [] => .ok s
  | c :: cs =>
    match s.call c with
    | .error e => .error e
    | .ok s1 => statSession.calls s1 cs

/-! ## Auxiliary definitions for the statements -/

/-- The worker loop on an explicit list of received commands, each with the clock reading
of its iteration. -/
def GoStat.run (g : GoStat) : List (time.Time × statCommand) → Except Fault GoStat
  | [] => .ok g
  | (now, cmd) :: rest =>
    match g.dispatch now cmd with
    | .error e => .error e
    | .ok (g1, _) => GoStat.run g1 rest

/-- The values carried by the `AddCount` commands for key `k` in a command sequence. -/
def addCountValues (k : String) (cmds : List statCommand) : List Int :=
  cmds.filterMap fun c =>
    if c.CmdType = .cmdAddCount ∧ c.Key = k then
      match c.Value with
      | .int64 n => some n
      | _ => none
    else none

/-- A command that writes a sum of key `k`: `AddCount`, `AddDuration` or `DurationEnd`. -/
def writesKey (k : String) (c : statCommand) : Prop :=
  c.Key = k ∧
    (c.CmdType = .cmdAddCount ∨ c.CmdType = .cmdAddDuration ∨ c.CmdType = .cmdDurationEnd)

instance (k : String) (c : statCommand) : Decidable (writesKey k c) := by
  unfold writesKey
  exact inferInstance

/-- The values carried by the `AddDuration` commands for key `k` in a command sequence. -/
def addDurationValues (k : String) (cmds : List statCommand) : List Int :=
  cmds.filterMap fun c =>
    if c.CmdType = .cmdAddDuration ∧ c.Key = k then
      match c.Value with
      | .duration d => some d
      | _ => none
    else none

/-- A call of one of the six methods of the aggregator that send a command, with the
reading of `time.Now()` where the method takes one. -/
inductive apiCall where
  | DurationBegin (now : time.Time) (key : String)
  | DurationEnd (key : String)
  | AddCount (key : String) (value : Int)
  | AddDruation (key : String) (value : time.Duration)
  | GetCount (key : String)
  | GetDuration (key : String)

/-- The command that the method sends on `cmdCh`; the two readers attach a fresh reply
channel. -/
def apiCall.command : apiCall → statCommand
  | .DurationBegin now key =>
    { CmdType := .cmdDurationBegin, Key := key, Value := .time now, ResultCh := false }
  | .DurationEnd key =>
    { CmdType := .cmdDurationEnd, Key := key, Value := .nil, ResultCh := false }
  | .AddCount key value =>
    { CmdType := .cmdAddCount, Key := key, Value := .int64 value, ResultCh := false }
  | .AddDruation key value =>
    { CmdType := .cmdAddDuration, Key := key, Value := .duration value, ResultCh := false }
  | .GetCount key =>
    { CmdType := .cmdGetCount, Key := key, Value := .nil, ResultCh := true }
  | .GetDuration key =>
    { CmdType := .cmdGetDuration, Key := key, Value := .nil, ResultCh := true }

/-- The additive writes: an `AddCount` command carrying an `int64` or an `AddDuration`
command carrying a `time.Duration`, as `GoStat.AddCount` and `GoStat.AddDruation` build
them. -/
def isAdditiveWrite (c : statCommand) : Bool :=
  match c.CmdType, c.Value with
  | .cmdAddCount, .int64 _ => true
  | .cmdAddDuration, .duration _ => true
  | _, _ => false

/-- The entry of a sum map after the values `vs` were added, in any order, with wrapping
`int64` additions to the entry `o`: untouched when there is no value. -/
def accum (o : Option Int) (vs : List Int) : Option Int :=
  match vs with
  | [] => o
  | _ :: _ => some (wrap64 (o.getD 0 + vs.sum))

/-- The lists obtained by merging the sequences `seqs` into one, keeping the order inside
each sequence: what a FIFO channel can receive from producers that each send their own
sequence in order. -/
inductive Interleaving {α : Type} : List (List α) → List α → Prop where
  | done (seqs : List (List α)) : (∀ s ∈ seqs, s = []) → Interleaving seqs []
  | step (pre post : List (List α)) (x : α) (s l : List α) :
      Interleaving (pre ++ s :: post) l → Interleaving (pre ++ (x :: s) :: post) (x :: l)

end gostat

/-! # Theorems -/

namespace gostat

/-! ## Wrapping arithmetic -/

theorem wrap64_wrap64_add (a b : Int) : wrap64 (wrap64 a + b) = wrap64 (a + b) := by
  unfold wrap64
  omega

theorem wrap64_of_inInt64 {x : Int} (h : inInt64 x) : wrap64 x = x := by
  unfold inInt64 minInt64 maxInt64 at h
  unfold wrap64
  omega

theorem wrap64_idem (x : Int) : wrap64 (wrap64 x) = wrap64 x := by
  unfold wrap64
  omega

theorem foldl_add64 (vs : List Int) (c : Int) (hc : wrap64 c = c) :
    vs.foldl add64 c = wrap64 (c + vs.sum) := by
  induction vs generalizing c with
  | nil => simpa using hc.symm
  | cons v vs ih =>
    simp only [List.foldl_cons, List.sum_cons]
    rw [ih (add64 c v) (wrap64_idem _), add64, wrap64_wrap64_add, add_assoc]

/-! ## Reading a map with the zero default -/

theorem GetCount_eq (g : GoStat) (now : time.Time) (k : String) :
    g.GetCount now k = .ok ((g.countStat.lookup k).getD 0) := by
  simp only [GoStat.GetCount, GoStat.dispatch, GoStat.cmdGetCount]
  cases g.countStat.lookup k <;> rfl

theorem GetDuration_eq (g : GoStat) (now : time.Time) (k : String) :
    g.GetDuration now k = .ok ((g.durationStat.lookup k).getD 0) := by
  simp only [GoStat.GetDuration, GoStat.dispatch, GoStat.cmdGetDuration]
  cases g.durationStat.lookup k <;> rfl

/-! ## The worker loop -/

theorem dispatch_setCh (g : GoStat) (q : List statCommand) (now : time.Time)
    (c : statCommand) :
    GoStat.dispatch { g with cmdCh := q } now c =
      (g.dispatch now c).map (fun p => ({ p.1 with cmdCh := q }, p.2)) := by
  unfold GoStat.dispatch
  cases hc : c.CmdType <;> simp only []
  · unfold GoStat.cmdDurationBegin
    simp only []
    cases g.tmpDuration.lookup c.Key <;> simp only [] <;> cases c.Value <;> rfl
  · unfold GoStat.cmdDurationEnd
    simp only []
    cases g.tmpDuration.lookup c.Key <;> rfl
  · unfold GoStat.cmdAddCount
    simp only []
    cases c.Value <;> rfl
  · unfold GoStat.cmdGetCount
    simp only []
    cases c.ResultCh <;> rfl
  · unfold GoStat.cmdGetDuration
    simp only []
    cases c.ResultCh <;> rfl
  · unfold GoStat.cmdAddDuration
    simp only []
    cases c.Value <;> rfl
  · rfl

theorem start_eq_run (q : List statCommand) (g : GoStat) (nows : List time.Time)
    (h : q.length ≤ nows.length) :
    GoStat.start { g with cmdCh := q } nows =
      GoStat.run { g with cmdCh := [] } (nows.zip q) := by
  induction q generalizing g nows with
  | nil =>
    cases nows <;> simp [GoStat.start, GoStat.run]
  | cons c rest ih =>
    cases nows with
    | nil => simp at h
    | cons now nows =>
      simp only [List.length_cons, Nat.add_le_add_iff_right] at h
      simp only [GoStat.start, List.zip_cons_cons, GoStat.run]
      rw [dispatch_setCh g rest, dispatch_setCh g []]
      cases hd : g.dispatch now c with
      | error e => rfl
      | ok p =>
        obtain ⟨g1, r⟩ := p
        simp only [Except.map]
        exact ih g1 nows h

/-- Inversion of a successful `dispatch`: what the command was and what state it left. -/
theorem dispatch_ok_inv {g g1 : GoStat} {now : time.Time} {c : statCommand}
    {r : Option AnyValue} (h : g.dispatch now c = .ok (g1, r)) :
    (c.CmdType = .cmdDurationBegin ∧ ∃ t, c.Value = .time t ∧
        g.tmpDuration.lookup c.Key = none ∧
        g1 = { g with tmpDuration := g.tmpDuration.insert c.Key t }) ∨
    (c.CmdType = .cmdDurationEnd ∧ ∃ t0, g.tmpDuration.lookup c.Key = some t0 ∧
        g1 = { g with durationStat := (g.durationStat.insert c.Key
          (add64 ((g.durationStat.lookup c.Key).getD 0) (time.Since now t0))) }) ∨
    (c.CmdType = .cmdAddCount ∧ ∃ n, c.Value = .int64 n ∧
        g1 = { g with countStat := (g.countStat.insert c.Key
          (add64 ((g.countStat.lookup c.Key).getD 0) n)) }) ∨
    (c.CmdType = .cmdAddDuration ∧ ∃ d, c.Value = .duration d ∧
        g1 = { g with durationStat := (g.durationStat.insert c.Key
          (add64 ((g.durationStat.lookup c.Key).getD 0) d)) }) ∨
    ((c.CmdType = .cmdGetCount ∨ c.CmdType = .cmdGetDuration ∨ c.CmdType = .cmdEndSession) ∧
        g1 = g) := by
  unfold GoStat.dispatch at h
  cases hc : c.CmdType <;> rw [hc] at h <;> simp only [] at h
  · left
    refine ⟨rfl, ?_⟩
    unfold GoStat.cmdDurationBegin at h
    cases hl : g.tmpDuration.lookup c.Key with
    | some t0 => rw [hl] at h; cases h
    | none =>
      rw [hl] at h
      cases hv : c.Value <;> rw [hv] at h <;> simp only [Except.map] at h <;> try cases h
      exact ⟨_, rfl, rfl, rfl⟩
  · right; left
    refine ⟨rfl, ?_⟩
    unfold GoStat.cmdDurationEnd at h
    cases hl : g.tmpDuration.lookup c.Key with
    | none => rw [hl] at h; cases h
    | some t0 =>
      rw [hl] at h
      simp only [Except.map] at h
      cases h
      exact ⟨_, rfl, rfl⟩
  · right; right; left
    refine ⟨rfl, ?_⟩
    unfold GoStat.cmdAddCount at h
    cases hv : c.Value <;> rw [hv] at h <;>
      simp only [Except.map] at h <;> try cases h
    exact ⟨_, rfl, rfl⟩
  · right; right; right; right
    refine ⟨Or.inl rfl, ?_⟩
    unfold GoStat.cmdGetCount at h
    cases hr : c.ResultCh <;> rw [hr] at h <;> simp [Except.map] at h
    exact h.1.symm
  · right; right; right; right
    refine ⟨Or.inr (Or.inl rfl), ?_⟩
    unfold GoStat.cmdGetDuration at h
    cases hr : c.ResultCh <;> rw [hr] at h <;> simp [Except.map] at h
    exact h.1.symm
  · right; right; right; left
    refine ⟨rfl, ?_⟩
    unfold GoStat.cmdAddDuration at h
    cases hv : c.Value <;> rw [hv] at h <;>
      simp only [Except.map] at h <;> try cases h
    exact ⟨_, rfl, rfl⟩
  · right; right; right; right
    refine ⟨Or.inr (Or.inr rfl), ?_⟩
    cases h
    rfl

/-! ## Counts -/

theorem addCountValues_cons (k : String) (c : statCommand) (cs : List statCommand) :
    addCountValues k (c :: cs) = addCountValues k [c] ++ addCountValues k cs := by
  unfold addCountValues
  rw [← List.filterMap_append]
  rfl

theorem dispatch_count {g g1 : GoStat} {now : time.Time} {c : statCommand}
    {r : Option AnyValue} (h : g.dispatch now c = .ok (g1, r)) (k : String) :
    (g1.countStat.lookup k).getD 0 =
      (addCountValues k [c]).foldl add64 ((g.countStat.lookup k).getD 0) := by
  rcases dispatch_ok_inv h with ⟨hc, t, -, -, rfl⟩ | ⟨hc, t0, -, rfl⟩ | ⟨hc, n, hv, rfl⟩ |
    ⟨hc, d, -, rfl⟩ | ⟨hc, rfl⟩
  · simp [addCountValues, hc]
  · simp [addCountValues, hc]
  · by_cases hk : c.Key = k
    · subst hk
      simp [addCountValues, hc, hv, AList.lookup_insert]
    · have hk2 : k ≠ c.Key := fun e => hk e.symm
      simp [addCountValues, hc, hk, AList.lookup_insert_ne hk2]
  · simp [addCountValues, hc]
  · rcases hc with hc | hc | hc <;> simp [addCountValues, hc]

theorem run_count {steps : List (time.Time × statCommand)} {g g1 : GoStat}
    (h : g.run steps = .ok g1) (k : String) :
    (g1.countStat.lookup k).getD 0 =
      (addCountValues k (steps.map Prod.snd)).foldl add64 ((g.countStat.lookup k).getD 0) := by
  induction steps generalizing g with
  | nil =>
    simp only [GoStat.run] at h
    cases h
    simp [addCountValues]
  | cons st rest ih =>
    obtain ⟨now, c⟩ := st
    simp only [GoStat.run] at h
    cases hd : g.dispatch now c with
    | error e => rw [hd] at h; cases h
    | ok p =>
      obtain ⟨g2, r⟩ := p
      rw [hd] at h
      simp only [] at h
      rw [ih h, List.map_cons, addCountValues_cons, List.foldl_append, dispatch_count hd k]

/-- C1 (amended). Starting from `NewStat`, once the worker has handled a command sequence
without a fault, `GetCount(k)` returns the sum of the values carried by the `AddCount`
commands for `k`, reduced to `int64` by two's-complement wrap-around; it is the arithmetic
sum whenever that sum lies in the `int64` range. -/
theorem C1_getCount_wrapped_sum (cmds : List statCommand) (nows : List time.Time)
    (k : String) (now : time.Time) (g : GoStat) (hlen : cmds.length ≤ nows.length)
    (hrun : GoStat.start { NewStat with cmdCh := cmds } nows = .ok g) :
    g.GetCount now k = .ok (wrap64 (addCountValues k cmds).sum) ∧
    (inInt64 (addCountValues k cmds).sum →
      g.GetCount now k = .ok (addCountValues k cmds).sum) := by
  rw [start_eq_run cmds NewStat nows hlen] at hrun
  have h := run_count hrun k
  rw [List.map_snd_zip _ _ hlen] at h
  have h0 : (({ NewStat with cmdCh := [] } : GoStat).countStat.lookup k).getD 0 = 0 := rfl
  rw [h0, foldl_add64 _ 0 rfl, zero_add] at h
  rw [GetCount_eq, h]
  exact ⟨rfl, fun hr => by rw [wrap64_of_inInt64 hr]⟩

/-- Witness of C1 (amended): three `AddCount` commands on two keys. -/
theorem C1_getCount_wrapped_sum_witness :
    GoStat.start (NewStat.AddCount "a" 2 |>.AddCount "b" 5 |>.AddCount "a" 3) [0, 0, 0] =
      .ok { NewStat with countStat :=
        ((∅ : GoMap Int).insert "a" 2 |>.insert "b" 5 |>.insert "a" 5) } ∧
    ({ NewStat with countStat :=
        ((∅ : GoMap Int).insert "a" 2 |>.insert "b" 5 |>.insert "a" 5) } : GoStat).GetCount 0 "a"
      = .ok 5 :=
  ⟨rfl, (C1_getCount_wrapped_sum
    (NewStat.AddCount "a" 2 |>.AddCount "b" 5 |>.AddCount "a" 3).cmdCh [0, 0, 0] "a" 0
    { NewStat with countStat :=
        ((∅ : GoMap Int).insert "a" 2 |>.insert "b" 5 |>.insert "a" 5) }
    (by decide) rfl).2 (by decide)⟩

/-- C1 (as stated) fails: after `AddCount(k, 9223372036854775807)` and `AddCount(k, 1)` on
a fresh aggregator, `GetCount(k)` returns `-9223372036854775808`, not the arithmetic sum
`9223372036854775808`. -/
theorem C1_counterexample :
    (GoStat.start ((NewStat.AddCount "k" 9223372036854775807).AddCount "k" 1) [0, 0] >>=
        fun g => g.GetCount 0 "k") = .ok (-9223372036854775808) ∧
    (addCountValues "k"
        ((NewStat.AddCount "k" 9223372036854775807).AddCount "k" 1).cmdCh).sum
      = 9223372036854775808 ∧
    (-9223372036854775808 : Int) ≠ 9223372036854775808 :=
  ⟨rfl, by decide, by decide⟩

/-! ## Keys that were never written -/

theorem dispatch_unwritten {g g1 : GoStat} {now : time.Time} {c : statCommand}
    {r : Option AnyValue} (h : g.dispatch now c = .ok (g1, r)) (k : String)
    (hk : ¬ writesKey k c) :
    g1.countStat.lookup k = g.countStat.lookup k ∧
    g1.durationStat.lookup k = g.durationStat.lookup k := by
  unfold writesKey at hk
  rcases dispatch_ok_inv h with ⟨hc, t, -, -, rfl⟩ | ⟨hc, t0, -, rfl⟩ | ⟨hc, n, hv, rfl⟩ |
    ⟨hc, d, -, rfl⟩ | ⟨hc, rfl⟩
  · exact ⟨rfl, rfl⟩
  · have hne : k ≠ c.Key := fun e => hk ⟨e.symm, Or.inr (Or.inr hc)⟩
    exact ⟨rfl, AList.lookup_insert_ne hne⟩
  · have hne : k ≠ c.Key := fun e => hk ⟨e.symm, Or.inl hc⟩
    exact ⟨AList.lookup_insert_ne hne, rfl⟩
  · have hne : k ≠ c.Key := fun e => hk ⟨e.symm, Or.inr (Or.inl hc)⟩
    exact ⟨rfl, AList.lookup_insert_ne hne⟩
  · exact ⟨rfl, rfl⟩

theorem run_unwritten {steps : List (time.Time × statCommand)} {g g1 : GoStat}
    (h : g.run steps = .ok g1) (k : String)
    (hk : ∀ c ∈ steps.map Prod.snd, ¬ writesKey k c) :
    g1.countStat.lookup k = g.countStat.lookup k ∧
    g1.durationStat.lookup k = g.durationStat.lookup k := by
  induction steps generalizing g with
  | nil =>
    simp only [GoStat.run] at h
    cases h
    exact ⟨rfl, rfl⟩
  | cons st rest ih =>
    obtain ⟨now, c⟩ := st
    simp only [GoStat.run] at h
    cases hd : g.dispatch now c with
    | error e => rw [hd] at h; cases h
    | ok p =>
      obtain ⟨g2, r⟩ := p
      rw [hd] at h
      simp only [] at h
      have h1 := dispatch_unwritten hd k (hk c (by simp))
      have h2 := ih h (fun c' hc' => hk c' (by simp only [List.map_cons]; exact List.mem_cons_of_mem _ hc'))
      exact ⟨h2.1.trans h1.1, h2.2.trans h1.2⟩

/-- C2. On a fresh aggregator, and after the worker has handled any command sequence that
holds no `AddCount`, `AddDuration` or `DurationEnd` on key `k`, both `GetCount(k)` and
`GetDuration(k)` return 0 without a fault. -/
theorem C2_unwritten_key_reads_zero (cmds : List statCommand) (nows : List time.Time)
    (k : String) (now : time.Time) (g : GoStat) (hlen : cmds.length ≤ nows.length)
    (hk : ∀ c ∈ cmds, ¬ writesKey k c)
    (hrun : GoStat.start { NewStat with cmdCh := cmds } nows = .ok g) :
    (g.GetCount now k = .ok 0 ∧ g.GetDuration now k = .ok 0) ∧
    (NewStat.GetCount now k = .ok 0 ∧ NewStat.GetDuration now k = .ok 0) := by
  rw [start_eq_run cmds NewStat nows hlen] at hrun
  have h := run_unwritten hrun k (by rw [List.map_snd_zip _ _ hlen]; exact hk)
  rw [GetCount_eq, GetDuration_eq, h.1, h.2]
  exact ⟨⟨rfl, rfl⟩, rfl, rfl⟩

/-- Witness of C2: key `k` after a begin on `k` and writes on other keys. -/
theorem C2_unwritten_key_reads_zero_witness :
    GoStat.start
        (NewStat.DurationBegin 1 "k" |>.AddCount "a" 2 |>.AddDruation "b" 5) [0, 0, 0] =
      .ok { NewStat with
        tmpDuration := (∅ : GoMap time.Time).insert "k" 1
        countStat := (∅ : GoMap Int).insert "a" 2
        durationStat := (∅ : GoMap time.Duration).insert "b" 5 } ∧
    ({ NewStat with
        tmpDuration := (∅ : GoMap time.Time).insert "k" 1
        countStat := (∅ : GoMap Int).insert "a" 2
        durationStat := (∅ : GoMap time.Duration).insert "b" 5 } : GoStat).GetCount 0 "k"
      = .ok 0 ∧
    ({ NewStat with
        tmpDuration := (∅ : GoMap time.Time).insert "k" 1
        countStat := (∅ : GoMap Int).insert "a" 2
        durationStat := (∅ : GoMap time.Duration).insert "b" 5 } : GoStat).GetDuration 0 "k"
      = .ok 0 :=
  ⟨rfl, (C2_unwritten_key_reads_zero
    (NewStat.DurationBegin 1 "k" |>.AddCount "a" 2 |>.AddDruation "b" 5).cmdCh [0, 0, 0]
    "k" 0 _ (by decide) (by decide) rfl).1⟩

/-! ## Open measurements in the aggregator -/

theorem dispatch_open_mono {g g1 : GoStat} {now : time.Time} {c : statCommand}
    {r : Option AnyValue} (h : g.dispatch now c = .ok (g1, r)) (k : String)
    (hk : k ∈ g.tmpDuration) : k ∈ g1.tmpDuration := by
  rcases dispatch_ok_inv h with ⟨hc, t, -, -, rfl⟩ | ⟨hc, t0, -, rfl⟩ | ⟨hc, n, hv, rfl⟩ |
    ⟨hc, d, -, rfl⟩ | ⟨hc, rfl⟩
  · exact (AList.mem_insert _).2 (Or.inr hk)
  · exact hk
  · exact hk
  · exact hk
  · exact hk

theorem run_open_mono {steps : List (time.Time × statCommand)} {g g1 : GoStat}
    (h : g.run steps = .ok g1) (k : String) (hk : k ∈ g.tmpDuration) :
    k ∈ g1.tmpDuration := by
  induction steps generalizing g with
  | nil =>
    simp only [GoStat.run] at h
    cases h
    exact hk
  | cons st rest ih =>
    obtain ⟨now, c⟩ := st
    simp only [GoStat.run] at h
    cases hd : g.dispatch now c with
    | error e => rw [hd] at h; cases h
    | ok p =>
      obtain ⟨g2, r⟩ := p
      rw [hd] at h
      exact ih h (dispatch_open_mono hd k hk)

theorem dispatch_cmdCh {g g1 : GoStat} {now : time.Time} {c : statCommand}
    {r : Option AnyValue} (h : g.dispatch now c = .ok (g1, r)) : g1.cmdCh = g.cmdCh := by
  rcases dispatch_ok_inv h with ⟨hc, t, -, -, rfl⟩ | ⟨hc, t0, -, rfl⟩ | ⟨hc, n, hv, rfl⟩ |
    ⟨hc, d, -, rfl⟩ | ⟨hc, rfl⟩ <;> rfl

theorem run_cmdCh {steps : List (time.Time × statCommand)} {g g1 : GoStat}
    (h : g.run steps = .ok g1) : g1.cmdCh = g.cmdCh := by
  induction steps generalizing g with
  | nil =>
    simp only [GoStat.run] at h
    cases h
    rfl
  | cons st rest ih =>
    obtain ⟨now, c⟩ := st
    simp only [GoStat.run] at h
    cases hd : g.dispatch now c with
    | error e => rw [hd] at h; cases h
    | ok p =>
      obtain ⟨g2, r⟩ := p
      rw [hd] at h
      exact (ih h).trans (dispatch_cmdCh hd)

theorem start_begin_open (g : GoStat) (now t : time.Time) (k : String) (hq : g.cmdCh = [])
    (hk : k ∈ g.tmpDuration) :
    GoStat.start (g.DurationBegin t k) [now] =
      .error (.panic ("Duplicate duration start for key " ++ k)) := by
  obtain ⟨v, hv⟩ := Option.isSome_iff_exists.1 (AList.lookup_isSome.2 hk)
  simp [GoStat.start, GoStat.DurationBegin, GoStat.send, hq, GoStat.dispatch,
    GoStat.cmdDurationBegin, hv, Except.map]

theorem start_begin_closed (g : GoStat) (now t : time.Time) (k : String) (hq : g.cmdCh = [])
    (hk : k ∉ g.tmpDuration) :
    GoStat.start (g.DurationBegin t k) [now] =
      .ok { g with tmpDuration := g.tmpDuration.insert k t } := by
  have hv := AList.lookup_eq_none.2 hk
  cases g with
  | mk ds td cs q =>
    simp only at hq hv
    subst hq
    simp [GoStat.start, GoStat.DurationBegin, GoStat.send, GoStat.dispatch,
      GoStat.cmdDurationBegin, hv, Except.map]

/-- C3 (the code at the failing input). After `DurationBegin(k)` and `DurationEnd(k)` on a
fresh aggregator the key is still in `tmpDuration`, and the next `DurationBegin(k)` makes
the worker panic. -/
theorem C3_end_keeps_open_marker :
    (GoStat.start ((NewStat.DurationBegin 0 "k").DurationEnd "k") [0, 1]).map
        (fun g => g.tmpDuration.lookup "k") = .ok (some 0) ∧
    GoStat.start (((NewStat.DurationBegin 0 "k").DurationEnd "k").DurationBegin 2 "k")
        [0, 1, 2] = .error (.panic "Duplicate duration start for key k") :=
  ⟨rfl, rfl⟩

/-- C4 (the code at the failing input). On a fresh aggregator the history `begin(k)`,
`end(k)`, `end(k)` is handled without a fault: the second end measures again from the
same start and the sum becomes 5 + 7; an end on a key never begun does panic. -/
theorem C4_second_end_not_fatal :
    (GoStat.start (((NewStat.DurationBegin 0 "k").DurationEnd "k").DurationEnd "k")
        [0, 5, 7]).map (fun g => g.durationStat.lookup "k") = .ok (some 12) ∧
    GoStat.start (NewStat.DurationEnd "k") [0] =
      .error (.panic "Daling duration end for key k") :=
  ⟨rfl, rfl⟩

/-- C5 (the code at the failing input). On a fresh aggregator a `DurationBegin(k)` is
handled and stores the timestamp of the command, and a second `DurationBegin(k)` with no
`DurationEnd(k)` in between makes the worker panic; but after `DurationBegin(k)` and
`DurationEnd(k)`, when no measurement of `k` is open any more, a `DurationBegin(k)` makes
the worker panic as well, because the end left `k` in `tmpDuration`. -/
theorem C5_begin_after_end_panics :
    GoStat.start (NewStat.DurationBegin 3 "k") [0] =
      .ok { NewStat with tmpDuration := (∅ : GoMap time.Time).insert "k" 3 } ∧
    GoStat.start ((NewStat.DurationBegin 3 "k").DurationBegin 4 "k") [0, 0] =
      .error (.panic "Duplicate duration start for key k") ∧
    (GoStat.start ((NewStat.DurationBegin 3 "k").DurationEnd "k") [0, 8]).map
        (fun g => (g.tmpDuration.lookup "k", g.durationStat.lookup "k", g.cmdCh)) =
      .ok (some 3, some 5, []) ∧
    GoStat.start (((NewStat.DurationBegin 3 "k").DurationEnd "k").DurationBegin 9 "k")
        [0, 8, 9] = .error (.panic "Duplicate duration start for key k") :=
  ⟨rfl, rfl, rfl, rfl⟩

/-! ## One measurement in the aggregator -/

theorem time_Sub_of_inInt64 {t u : time.Time} (h : inInt64 (t - u)) : time.Sub t u = t - u := by
  unfold inInt64 at h
  unfold time.Sub
  rw [if_neg (not_lt.2 h.1), if_neg (not_lt.2 h.2)]

/-- C6 (amended). In a state with an idle channel where `k` has no entry in
`tmpDuration`, a `DurationBegin(k)` issued at `t0` and a `DurationEnd(k)` handled at `t1`
are handled without a fault and leave `GetDuration(k)` at the wrapping `int64` sum of its
previous value and the saturating difference `t1 - t0`, every other duration sum as it
was; the new value is exactly the previous value plus `t1 - t0` when nothing overflows.
Nothing is stated for a key that has an entry in `tmpDuration`, which a key begun and
ended before still has. -/
theorem C6_begin_end_adds_elapsed (g : GoStat) (k : String) (t0 nowB t1 now : time.Time)
    (hq : g.cmdCh = []) (hk : k ∉ g.tmpDuration) :
    ∃ g2, GoStat.start ((g.DurationBegin t0 k).DurationEnd k) [nowB, t1] = .ok g2 ∧
      g2.GetDuration now k =
        (g.GetDuration now k).map (fun d => add64 d (time.Sub t1 t0)) ∧
      (∀ k2, k2 ≠ k → g2.durationStat.lookup k2 = g.durationStat.lookup k2) ∧
      (∀ d, g.GetDuration now k = .ok d → inInt64 (t1 - t0) → inInt64 (d + (t1 - t0)) →
        g2.GetDuration now k = .ok (d + (t1 - t0))) := by
  have hv := AList.lookup_eq_none.2 hk
  cases g with
  | mk ds td cs q =>
    simp only at hq hv
    subst hq
    refine ⟨{ durationStat := ds.insert k (add64 ((ds.lookup k).getD 0) (time.Since t1 t0)),
              tmpDuration := td.insert k t0, countStat := cs, cmdCh := [] }, ?_, ?_, ?_, ?_⟩
    · simp [GoStat.start, GoStat.DurationBegin, GoStat.DurationEnd, GoStat.send,
        GoStat.dispatch, GoStat.cmdDurationBegin, GoStat.cmdDurationEnd, hv, Except.map]
    · simp [GetDuration_eq, Except.map, time.Since]
    · intro k2 hne
      exact AList.lookup_insert_ne hne
    · intro d hd h1 h2
      rw [GetDuration_eq] at hd
      simp only [Except.ok.injEq] at hd
      simp only [GetDuration_eq, AList.lookup_insert, Option.getD_some, hd, time.Since,
        time_Sub_of_inInt64 h1, add64, wrap64_of_inInt64 h2]

/-- Witness of C6 (amended): a measurement from instant 10 to instant 25 on top of a
previous sum of 7. -/
theorem C6_begin_end_adds_elapsed_witness :
    ∃ g2, GoStat.start
        ((({ NewStat with durationStat := (∅ : GoMap time.Duration).insert "k" 7 } :
          GoStat).DurationBegin 10 "k").DurationEnd "k") [12, 25] = .ok g2 ∧
      g2.GetDuration 0 "k" = .ok 22 := by
  obtain ⟨g2, h1, -, -, h4⟩ := C6_begin_end_adds_elapsed
    { NewStat with durationStat := (∅ : GoMap time.Duration).insert "k" 7 } "k" 10 12 25 0
    rfl (by decide)
  exact ⟨g2, h1, h4 7 rfl (by decide) (by decide)⟩

/-- C6 (as stated) fails: with a previous sum of `9223372036854775807` for `k` (left by
one `AddDruation`), a measurement from instant 0 to instant 1 takes `GetDuration(k)` to
`-9223372036854775808`, which is not the previous sum plus 1. -/
theorem C6_counterexample :
    GoStat.start (NewStat.AddDruation "k" 9223372036854775807) [0] =
      .ok { NewStat with
        durationStat := (∅ : GoMap time.Duration).insert "k" 9223372036854775807 } ∧
    "k" ∉ ({ NewStat with
        durationStat := (∅ : GoMap time.Duration).insert "k" 9223372036854775807 } :
          GoStat).tmpDuration ∧
    ({ NewStat with
        durationStat := (∅ : GoMap time.Duration).insert "k" 9223372036854775807 } :
          GoStat).GetDuration 0 "k" = .ok 9223372036854775807 ∧
    (GoStat.start
        ((({ NewStat with
            durationStat := (∅ : GoMap time.Duration).insert "k" 9223372036854775807 } :
          GoStat).DurationBegin 0 "k").DurationEnd "k") [0, 1] >>=
      fun g => g.GetDuration 0 "k") = .ok (-9223372036854775808) ∧
    (-9223372036854775808 : Int) ≠ 9223372036854775807 + (1 - 0) :=
  ⟨rfl, by decide, rfl, rfl, by decide⟩

/-! ## Recording calls of a session -/

theorem call_stat {s s1 : statSession} {c : sessionCall} (h : s.call c = .ok s1) :
    s1.stat = s.stat := by
  cases c with
  | DurationBegin now key =>
    simp only [statSession.call, statSession.DurationBegin] at h
    cases hm : addTimeToMap s.tmpDurationBegin key now with
    | error e => rw [hm] at h; cases h
    | ok m => rw [hm] at h; cases h; rfl
  | DurationEnd now key =>
    simp only [statSession.call, statSession.DurationEnd] at h
    cases hm : getDurationFromMap s.tmpDurationBegin key now with
    | error e => rw [hm] at h; cases h
    | ok p => obtain ⟨m, d⟩ := p; rw [hm] at h; cases h; rfl
  | AddCount key count =>
    simp only [statSession.call, statSession.AddCount] at h
    cases h
    rfl

/-- C8. Any sequence of `DurationBegin`, `DurationEnd` and `AddCount` calls on a session
that runs without a panic leaves the aggregator the session points to as it was: nothing is
sent on `cmdCh`, the three maps are unchanged, and `GetCount` and `GetDuration` return what
they returned before. -/
theorem C8_session_calls_frame (s s1 : statSession) (cs : List sessionCall)
    (now : time.Time) (k : String) (h : s.calls cs = .ok s1) :
    s1.stat.cmdCh = s.stat.cmdCh ∧
    s1.stat.countStat = s.stat.countStat ∧
    s1.stat.durationStat = s.stat.durationStat ∧
    s1.stat.tmpDuration = s.stat.tmpDuration ∧
    s1.stat.GetCount now k = s.stat.GetCount now k ∧
    s1.stat.GetDuration now k = s.stat.GetDuration now k := by
  have hs : s1.stat = s.stat := by
    induction cs generalizing s with
    | nil =>
      simp only [statSession.calls] at h
      cases h
      rfl
    | cons c cs ih =>
      simp only [statSession.calls] at h
      cases hc : s.call c with
      | error e => rw [hc] at h; cases h
      | ok s2 =>
        rw [hc] at h
        exact (ih s2 h).trans (call_stat hc)
  rw [hs]
  exact ⟨rfl, rfl, rfl, rfl, rfl, rfl⟩

/-- Witness of C8: a session on an aggregator whose count for `c` is 4 records a
measurement on `a` and a count on `c`. -/
theorem C8_session_calls_frame_witness :
    (({ NewStat with countStat := (∅ : GoMap Int).insert "c" 4 } : GoStat).NewSession.calls
        [.DurationBegin 0 "a", .AddCount "c" 2, .DurationEnd 5 "a"]) =
      .ok { stat := { NewStat with countStat := (∅ : GoMap Int).insert "c" 4 }
            tmpDurationBegin := ((∅ : GoMap time.Time).insert "a" 0).erase "a"
            duration := (∅ : GoMap time.Duration).insert "a" 5
            count := (∅ : GoMap Int).insert "c" 2 } ∧
    ({ NewStat with countStat := (∅ : GoMap Int).insert "c" 4 } : GoStat).GetCount 9 "c" =
      .ok 4 :=
  ⟨rfl, ((C8_session_calls_frame
    ({ NewStat with countStat := (∅ : GoMap Int).insert "c" 4 } : GoStat).NewSession
    { stat := { NewStat with countStat := (∅ : GoMap Int).insert "c" 4 }
      tmpDurationBegin := ((∅ : GoMap time.Time).insert "a" 0).erase "a"
      duration := (∅ : GoMap time.Duration).insert "a" 5
      count := (∅ : GoMap Int).insert "c" 2 }
    [.DurationBegin 0 "a", .AddCount "c" 2, .DurationEnd 5 "a"] 9 "c" rfl).2.2.2.2.1).trans rfl⟩

/-! ## Flushing a session -/

theorem foldl_accum_lookup {V : Type} (f : Entry V → Int) (es : List (Entry V))
    (hnd : es.NodupKeys) (m : GoMap Int) (k : String) :
    (es.foldl (fun m e => m.insert e.1 (add64 ((m.lookup e.1).getD 0) (f e))) m).lookup k =
      match es.dlookup k with
      | some v => some (add64 ((m.lookup k).getD 0) (f ⟨k, v⟩))
      | none => m.lookup k := by
  induction es generalizing m with
  | nil => rfl
  | cons e es ih =>
    obtain ⟨hne, hnd2⟩ := List.nodupKeys_cons.1 hnd
    simp only [List.foldl_cons]
    rw [ih hnd2]
    by_cases hk : k = e.1
    · subst hk
      have hnone : es.dlookup e.1 = none := List.dlookup_eq_none.2 hne
      obtain ⟨a, b⟩ := e
      simp only [hnone, List.dlookup_cons_eq, AList.lookup_insert]
    · rw [List.dlookup_cons_ne _ _ hk]
      simp only [AList.lookup_insert_ne hk]

theorem rangeOrder_nodupKeys {V : Type} {m : GoMap V} {order : List (Entry V)}
    (h : rangeOrder m order) : order.NodupKeys :=
  (List.perm_nodupKeys h).2 m.nodupKeys

theorem rangeOrder_dlookup {V : Type} {m : GoMap V} {order : List (Entry V)}
    (h : rangeOrder m order) (k : String) : order.dlookup k = m.lookup k :=
  List.perm_dlookup k (rangeOrder_nodupKeys h) m.nodupKeys h

theorem finishDurations_lookup (s : statSession) (oOpen : List (Entry time.Time))
    (clock : String → time.Time) (ho : rangeOrder s.tmpDurationBegin oOpen) (k : String) :
    (s.finishDurations oOpen clock).duration.lookup k =
      match s.tmpDurationBegin.lookup k with
      | some t0 => some (add64 ((s.duration.lookup k).getD 0) (time.Since (clock k) t0))
      | none => s.duration.lookup k := by
  have h := foldl_accum_lookup (fun e : Entry time.Time => time.Since (clock e.1) e.2) oOpen
    (rangeOrder_nodupKeys ho) s.duration k
  rw [rangeOrder_dlookup ho k] at h
  simp only [statSession.finishDurations, addDurationToMap]
  rw [h]
  cases s.tmpDurationBegin.lookup k <;> rfl

theorem foldl_AddDruation (es : List (Entry time.Duration)) (g : GoStat) :
    es.foldl (fun g e => g.AddDruation e.1 e.2) g =
      { g with cmdCh := g.cmdCh ++ es.map (fun e =>
          ({ CmdType := .cmdAddDuration, Key := e.1, Value := .duration e.2,
             ResultCh := false } : statCommand)) } := by
  induction es generalizing g with
  | nil => simp
  | cons e es ih =>
    rw [List.foldl_cons, ih]
    simp only [GoStat.AddDruation, GoStat.send, List.map_cons, List.append_assoc,
      List.singleton_append]

theorem foldl_AddCount (es : List (Entry Int)) (g : GoStat) :
    es.foldl (fun g e => g.AddCount e.1 e.2) g =
      { g with cmdCh := g.cmdCh ++ es.map (fun e =>
          ({ CmdType := .cmdAddCount, Key := e.1, Value := .int64 e.2,
             ResultCh := false } : statCommand)) } := by
  induction es generalizing g with
  | nil => simp
  | cons e es ih =>
    rw [List.foldl_cons, ih]
    simp only [GoStat.AddCount, GoStat.send, List.map_cons, List.append_assoc,
      List.singleton_append]

/-- The commands `End` sends: one `AddDuration` per visited duration entry, then one
`AddCount` per visited count entry, behind what the channel already held. -/
theorem End_stat (s : statSession) (oOpen : List (Entry time.Time))
    (clock : String → time.Time) (oDur : List (Entry time.Duration))
    (oCnt : List (Entry Int)) :
    (s.End oOpen clock oDur oCnt).stat =
      { s.stat with cmdCh := s.stat.cmdCh ++
          (oDur.map (fun e =>
            ({ CmdType := .cmdAddDuration, Key := e.1, Value := .duration e.2,
               ResultCh := false } : statCommand)) ++
          oCnt.map (fun e =>
            ({ CmdType := .cmdAddCount, Key := e.1, Value := .int64 e.2,
               ResultCh := false } : statCommand))) } := by
  simp only [statSession.End, foldl_AddDruation, foldl_AddCount, statSession.finishDurations,
    List.append_assoc]

theorem End_duration (s : statSession) (oOpen : List (Entry time.Time))
    (clock : String → time.Time) (oDur : List (Entry time.Duration))
    (oCnt : List (Entry Int)) :
    (s.End oOpen clock oDur oCnt).duration = (s.finishDurations oOpen clock).duration := rfl

theorem run_append (a b : List (time.Time × statCommand)) (g : GoStat) :
    g.run (a ++ b) =
      match g.run a with
      | .error e => .error e
      | .ok g1 => g1.run b := by
  induction a generalizing g with
  | nil => rfl
  | cons st rest ih =>
    obtain ⟨now, c⟩ := st
    simp only [List.cons_append, GoStat.run]
    cases hd : g.dispatch now c with
    | error e => rfl
    | ok p =>
      obtain ⟨g2, r⟩ := p
      exact ih g2

theorem run_AddDuration_cmds (es : List (Entry time.Duration))
    (steps : List (time.Time × statCommand)) (g : GoStat)
    (hs : steps.map Prod.snd = es.map (fun e =>
      ({ CmdType := .cmdAddDuration, Key := e.1, Value := .duration e.2,
         ResultCh := false } : statCommand))) :
    g.run steps = .ok { g with durationStat :=
      (es.foldl (fun m e => m.insert e.1 (add64 ((m.lookup e.1).getD 0) e.2)) g.durationStat) } := by
  induction es generalizing steps g with
  | nil =>
    simp only [List.map_nil, List.map_eq_nil_iff] at hs
    subst hs
    rfl
  | cons e es ih =>
    cases steps with
    | nil => simp at hs
    | cons st rest =>
      obtain ⟨now, c⟩ := st
      simp only [List.map_cons, List.cons.injEq] at hs
      obtain ⟨hc, hrest⟩ := hs
      subst hc
      simp only [GoStat.run, GoStat.dispatch, GoStat.cmdAddDuration, Except.map,
        List.foldl_cons]
      exact ih rest _ hrest

theorem run_AddCount_cmds (es : List (Entry Int))
    (steps : List (time.Time × statCommand)) (g : GoStat)
    (hs : steps.map Prod.snd = es.map (fun e =>
      ({ CmdType := .cmdAddCount, Key := e.1, Value := .int64 e.2,
         ResultCh := false } : statCommand))) :
    g.run steps = .ok { g with countStat :=
      (es.foldl (fun m e => m.insert e.1 (add64 ((m.lookup e.1).getD 0) e.2)) g.countStat) } := by
  induction es generalizing steps g with
  | nil =>
    simp only [List.map_nil, List.map_eq_nil_iff] at hs
    subst hs
    rfl
  | cons e es ih =>
    cases steps with
    | nil => simp at hs
    | cons st rest =>
      obtain ⟨now, c⟩ := st
      simp only [List.map_cons, List.cons.injEq] at hs
      obtain ⟨hc, hrest⟩ := hs
      subst hc
      simp only [GoStat.run, GoStat.dispatch, GoStat.cmdAddCount, Except.map,
        List.foldl_cons]
      exact ih rest _ hrest

/-- The worker on the commands of one `End`, from an idle channel: no fault, and the state
it reaches. -/
theorem start_End (s : statSession) (oOpen : List (Entry time.Time))
    (clock : String → time.Time) (oDur : List (Entry time.Duration))
    (oCnt : List (Entry Int)) (nows : List time.Time) (hq : s.stat.cmdCh = [])
    (hlen : (s.End oOpen clock oDur oCnt).stat.cmdCh.length ≤ nows.length) :
    GoStat.start (s.End oOpen clock oDur oCnt).stat nows =
      .ok { s.stat with
        durationStat := (oDur.foldl
          (fun m e => m.insert e.1 (add64 ((m.lookup e.1).getD 0) e.2)) s.stat.durationStat)
        countStat := (oCnt.foldl
          (fun m e => m.insert e.1 (add64 ((m.lookup e.1).getD 0) e.2)) s.stat.countStat) } := by
  rw [End_stat, hq, List.nil_append] at hlen ⊢
  simp only at hlen
  rw [start_eq_run _ s.stat nows hlen]
  have hsnd := List.map_snd_zip nows _ hlen
  obtain ⟨s1, s2, hsplit, h1, h2⟩ := List.map_eq_append_iff.1 hsnd
  rw [hsplit, run_append, run_AddDuration_cmds oDur s1 _ h1]
  simp only
  rw [run_AddCount_cmds oCnt s2 _ h2]
  simp only [hq]

theorem flushed_lookup (es : List (Entry Int)) (m0 m : GoMap Int) (h : rangeOrder m es)
    (k : String) :
    (es.foldl (fun a e => a.insert e.1 (add64 ((a.lookup e.1).getD 0) e.2)) m0).lookup k =
      match m.lookup k with
      | some v => some (add64 ((m0.lookup k).getD 0) v)
      | none => m0.lookup k := by
  have h1 := foldl_accum_lookup (fun e : Entry Int => e.2) es (rangeOrder_nodupKeys h) m0 k
  rw [rangeOrder_dlookup h k] at h1
  rw [h1]
  cases m.lookup k <;> rfl

/-- The effect of `End` followed by the worker on every count and duration sum. -/
theorem start_End_sums (s : statSession) (oOpen : List (Entry time.Time))
    (clock : String → time.Time) (oDur : List (Entry time.Duration))
    (oCnt : List (Entry Int)) (nows : List time.Time) (now : time.Time)
    (hq : s.stat.cmdCh = []) (ho : s.EndOrders oOpen clock oDur oCnt)
    (hlen : (s.End oOpen clock oDur oCnt).stat.cmdCh.length ≤ nows.length) :
    ∃ g1, GoStat.start (s.End oOpen clock oDur oCnt).stat nows = .ok g1 ∧
      ∀ k,
        (∀ v, s.count.lookup k = some v →
          g1.GetCount now k = (s.stat.GetCount now k).map (fun c => add64 c v) ∧
          ∀ c, s.stat.GetCount now k = .ok c → inInt64 (c + v) →
            g1.GetCount now k = .ok (c + v)) ∧
        (s.count.lookup k = none → g1.countStat.lookup k = s.stat.countStat.lookup k) ∧
        (∀ d, (s.End oOpen clock oDur oCnt).duration.lookup k = some d →
          g1.GetDuration now k = (s.stat.GetDuration now k).map (fun a => add64 a d) ∧
          ∀ a, s.stat.GetDuration now k = .ok a → inInt64 (a + d) →
            g1.GetDuration now k = .ok (a + d)) ∧
        ((s.End oOpen clock oDur oCnt).duration.lookup k = none →
          g1.durationStat.lookup k = s.stat.durationStat.lookup k) := by
  refine ⟨_, start_End s oOpen clock oDur oCnt nows hq hlen, ?_⟩
  intro k
  obtain ⟨-, hd, hc⟩ := ho
  have hcnt := flushed_lookup oCnt s.stat.countStat s.count hc k
  have hdur := flushed_lookup oDur s.stat.durationStat _ hd k
  rw [End_duration]
  refine ⟨?_, ?_, ?_, ?_⟩
  · intro v hv
    rw [hv] at hcnt
    simp only [GetCount_eq, Except.map, hcnt, Option.getD_some, Except.ok.injEq, true_and]
    intro c hcv hr
    rw [← hcv]
    exact wrap64_of_inInt64 (hcv ▸ hr)
  · intro hn
    rw [hn] at hcnt
    exact hcnt
  · intro d hv
    rw [hv] at hdur
    simp only [GetDuration_eq, Except.map, hdur, Option.getD_some, Except.ok.injEq, true_and]
    intro a hav hr
    rw [← hav]
    exact wrap64_of_inInt64 (hav ▸ hr)
  · intro hn
    rw [hn] at hdur
    exact hdur

/-- C7 (amended). From an idle channel, the worker handles the commands of `End` without
a fault, and then: for a key with local count `v` the count is the wrapping `int64` sum
of the count before and `v`; for a key with local duration sum `d` (force-closed
measurements included) the duration sum is the wrapping sum of the sum before and `d`;
keys absent from the local maps keep their entries; and the sums are the exact ones when
they do not overflow. -/
theorem C7_end_then_worker (s : statSession) (oOpen : List (Entry time.Time))
    (clock : String → time.Time) (oDur : List (Entry time.Duration))
    (oCnt : List (Entry Int)) (nows : List time.Time) (now : time.Time)
    (hq : s.stat.cmdCh = []) (ho : s.EndOrders oOpen clock oDur oCnt)
    (hlen : (s.End oOpen clock oDur oCnt).stat.cmdCh.length ≤ nows.length) :
    ∃ g1, GoStat.start (s.End oOpen clock oDur oCnt).stat nows = .ok g1 ∧
      ∀ k,
        (∀ v, s.count.lookup k = some v →
          g1.GetCount now k = (s.stat.GetCount now k).map (fun c => add64 c v) ∧
          ∀ c, s.stat.GetCount now k = .ok c → inInt64 (c + v) →
            g1.GetCount now k = .ok (c + v)) ∧
        (s.count.lookup k = none → g1.countStat.lookup k = s.stat.countStat.lookup k) ∧
        (∀ d, (s.End oOpen clock oDur oCnt).duration.lookup k = some d →
          g1.GetDuration now k = (s.stat.GetDuration now k).map (fun a => add64 a d) ∧
          ∀ a, s.stat.GetDuration now k = .ok a → inInt64 (a + d) →
            g1.GetDuration now k = .ok (a + d)) ∧
        ((s.End oOpen clock oDur oCnt).duration.lookup k = none →
          g1.durationStat.lookup k = s.stat.durationStat.lookup k) :=
  start_End_sums s oOpen clock oDur oCnt nows now hq ho hlen

/-- Witness of C7 (amended): the aggregator holds count 4 for `c` and duration 10 for
`a`; the session holds count 2 for `c`, duration 5 for `a` and an open measurement on `b`
begun at instant 1, closed by `End` at instant 8. -/
theorem C7_end_then_worker_witness :
    ∃ g1, GoStat.start
        (statSession.End
          { stat := { NewStat with
              countStat := (∅ : GoMap Int).insert "c" 4
              durationStat := (∅ : GoMap time.Duration).insert "a" 10 }
            tmpDurationBegin := (∅ : GoMap time.Time).insert "b" 1
            duration := (∅ : GoMap time.Duration).insert "a" 5
            count := (∅ : GoMap Int).insert "c" 2 }
          [⟨"b", 1⟩] (fun _ => 8) [⟨"a", 5⟩, ⟨"b", 7⟩] [⟨"c", 2⟩]).stat [0, 0, 0] = .ok g1 ∧
      g1.GetCount 0 "c" = .ok 6 ∧ g1.GetDuration 0 "a" = .ok 15 ∧
      g1.GetDuration 0 "b" = .ok 7 := by
  obtain ⟨g1, h1, h2⟩ := C7_end_then_worker
    { stat := { NewStat with
        countStat := (∅ : GoMap Int).insert "c" 4
        durationStat := (∅ : GoMap time.Duration).insert "a" 10 }
      tmpDurationBegin := (∅ : GoMap time.Time).insert "b" 1
      duration := (∅ : GoMap time.Duration).insert "a" 5
      count := (∅ : GoMap Int).insert "c" 2 }
    [⟨"b", 1⟩] (fun _ => 8) [⟨"a", 5⟩, ⟨"b", 7⟩] [⟨"c", 2⟩] [0, 0, 0] 0 rfl
    ⟨by decide, by decide, by decide⟩ (by decide)
  exact ⟨g1, h1, ((h2 "c").1 2 rfl).2 4 rfl (by decide),
    ((h2 "a").2.2.1 5 rfl).2 10 rfl (by decide),
    ((h2 "b").2.2.1 7 rfl).2 0 rfl (by decide)⟩

/-- C7 (as stated) fails: the aggregator holds count `9223372036854775807` for `k`, a
session created from it records `AddCount(k, 1)` and ends; after the worker has handled
the flush, `GetCount(k)` is `-9223372036854775808`, not the count before plus the local
count. -/
theorem C7_counterexample :
    ({ NewStat with countStat := (∅ : GoMap Int).insert "k" 9223372036854775807 } :
        GoStat).GetCount 0 "k" = .ok 9223372036854775807 ∧
    ((({ NewStat with countStat := (∅ : GoMap Int).insert "k" 9223372036854775807 } :
        GoStat).NewSession).AddCount "k" 1).count.lookup "k" = some 1 ∧
    statSession.EndOrders
      ((({ NewStat with countStat := (∅ : GoMap Int).insert "k" 9223372036854775807 } :
        GoStat).NewSession).AddCount "k" 1) [] (fun _ => 0) [] [⟨"k", 1⟩] ∧
    (GoStat.start
        (statSession.End
          ((({ NewStat with countStat := (∅ : GoMap Int).insert "k" 9223372036854775807 } :
            GoStat).NewSession).AddCount "k" 1) [] (fun _ => 0) [] [⟨"k", 1⟩]).stat [0] >>=
      fun g => g.GetCount 0 "k") = .ok (-9223372036854775808) ∧
    (-9223372036854775808 : Int) ≠ 9223372036854775807 + 1 :=
  ⟨rfl, rfl, ⟨by decide, by decide, by decide⟩, rfl, by decide⟩

/-- C9 (amended). When `End` finds key `k` open since `t0` and visits it at clock reading
`t1`, the local duration sum of `k` becomes the wrapping `int64` sum of its closed sum and
the saturating difference `t1 - t0`; from an idle channel the worker handles the flush
without a fault and the aggregator's duration sum of `k` becomes the wrapping sum of its
previous value and that local sum, which is the previous value plus the closed sum plus
`t1 - t0` when nothing overflows. This holds for every open key. -/
theorem C9_end_closes_open (s : statSession) (oOpen : List (Entry time.Time))
    (clock : String → time.Time) (oDur : List (Entry time.Duration))
    (oCnt : List (Entry Int)) (nows : List time.Time) (now : time.Time)
    (k : String) (t0 t1 : time.Time)
    (hq : s.stat.cmdCh = []) (ho : s.EndOrders oOpen clock oDur oCnt)
    (hlen : (s.End oOpen clock oDur oCnt).stat.cmdCh.length ≤ nows.length)
    (hopen : s.tmpDurationBegin.lookup k = some t0) (hclock : clock k = t1) :
    (s.End oOpen clock oDur oCnt).duration.lookup k =
      some (add64 ((s.duration.lookup k).getD 0) (time.Sub t1 t0)) ∧
    ∃ g1, GoStat.start (s.End oOpen clock oDur oCnt).stat nows = .ok g1 ∧
      g1.GetDuration now k = (s.stat.GetDuration now k).map
        (fun a => add64 a (add64 ((s.duration.lookup k).getD 0) (time.Sub t1 t0))) ∧
      ∀ a, s.stat.GetDuration now k = .ok a → inInt64 (t1 - t0) →
        inInt64 ((s.duration.lookup k).getD 0 + (t1 - t0)) →
        inInt64 (a + ((s.duration.lookup k).getD 0 + (t1 - t0))) →
        g1.GetDuration now k = .ok (a + ((s.duration.lookup k).getD 0 + (t1 - t0))) := by
  have hloc : (s.End oOpen clock oDur oCnt).duration.lookup k =
      some (add64 ((s.duration.lookup k).getD 0) (time.Sub t1 t0)) := by
    rw [End_duration, finishDurations_lookup s oOpen clock ho.1 k, hopen, hclock]
    rfl
  obtain ⟨g1, hrun, hall⟩ := start_End_sums s oOpen clock oDur oCnt nows now hq ho hlen
  refine ⟨hloc, g1, hrun, ((hall k).2.2.1 _ hloc).1, ?_⟩
  intro a ha h1 h2 h3
  have hexact : add64 ((s.duration.lookup k).getD 0) (time.Sub t1 t0) =
      (s.duration.lookup k).getD 0 + (t1 - t0) := by
    rw [time_Sub_of_inInt64 h1, add64, wrap64_of_inInt64 h2]
  have h4 := ((hall k).2.2.1 _ hloc).2 a ha (by rw [hexact]; exact h3)
  rw [h4, hexact]

/-- Witness of C9 (amended): the session has a closed sum of 5 for `k` and `k` open since
instant 1; `End` visits `k` at instant 8; the aggregator held 10 for `k`. -/
theorem C9_end_closes_open_witness :
    ∃ g1, GoStat.start
        (statSession.End
          { stat := { NewStat with durationStat := (∅ : GoMap time.Duration).insert "k" 10 }
            tmpDurationBegin := (∅ : GoMap time.Time).insert "k" 1
            duration := (∅ : GoMap time.Duration).insert "k" 5
            count := ∅ }
          [⟨"k", 1⟩] (fun _ => 8) [⟨"k", 12⟩] []).stat [0] = .ok g1 ∧
      g1.GetDuration 0 "k" = .ok 22 := by
  obtain ⟨-, g1, h1, -, h3⟩ := C9_end_closes_open
    { stat := { NewStat with durationStat := (∅ : GoMap time.Duration).insert "k" 10 }
      tmpDurationBegin := (∅ : GoMap time.Time).insert "k" 1
      duration := (∅ : GoMap time.Duration).insert "k" 5
      count := ∅ }
    [⟨"k", 1⟩] (fun _ => 8) [⟨"k", 12⟩] [] [0] 0 "k" 1 8 rfl
    ⟨by decide, by decide, by decide⟩ (by decide) rfl rfl
  exact ⟨g1, h1, h3 10 rfl (by decide) (by decide) (by decide)⟩

/-- C9 (as stated) fails: the aggregator holds the duration sum `9223372036854775807` for
`k`; a session created from it begins `k` at instant 0 and ends at instant 1 with `k`
still open and no closed sum; after the worker has handled the flush, `GetDuration(k)` is
`-9223372036854775808`, so the sum did not grow by 0 + (1 - 0). -/
theorem C9_counterexample :
    ({ NewStat with durationStat := (∅ : GoMap time.Duration).insert "k" 9223372036854775807 } :
        GoStat).NewSession.DurationBegin 0 "k" =
      .ok { stat := { NewStat with
              durationStat := (∅ : GoMap time.Duration).insert "k" 9223372036854775807 }
            tmpDurationBegin := (∅ : GoMap time.Time).insert "k" 0
            duration := ∅
            count := ∅ } ∧
    statSession.EndOrders
      { stat := { NewStat with
          durationStat := (∅ : GoMap time.Duration).insert "k" 9223372036854775807 }
        tmpDurationBegin := (∅ : GoMap time.Time).insert "k" 0
        duration := ∅
        count := ∅ }
      [⟨"k", 0⟩] (fun _ => 1) [⟨"k", 1⟩] [] ∧
    ({ NewStat with durationStat := (∅ : GoMap time.Duration).insert "k" 9223372036854775807 } :
        GoStat).GetDuration 0 "k" = .ok 9223372036854775807 ∧
    (GoStat.start
        (statSession.End
          { stat := { NewStat with
              durationStat := (∅ : GoMap time.Duration).insert "k" 9223372036854775807 }
            tmpDurationBegin := (∅ : GoMap time.Time).insert "k" 0
            duration := ∅
            count := ∅ }
          [⟨"k", 0⟩] (fun _ => 1) [⟨"k", 1⟩] []).stat [0] >>=
      fun g => g.GetDuration 0 "k") = .ok (-9223372036854775808) ∧
    (-9223372036854775808 : Int) ≠ 9223372036854775807 + (0 + (1 - 0)) :=
  ⟨rfl, ⟨by decide, by decide, by decide⟩, rfl, rfl, by decide⟩

/-! ## The commands of a flush -/

theorem filter_key_eq {V : Type} (es : List (Entry V)) (hnd : es.NodupKeys) (k : String) :
    es.filter (fun e => decide (e.1 = k)) =
      (es.dlookup k).toList.map (fun v => (⟨k, v⟩ : Entry V)) := by
  induction es with
  | nil => rfl
  | cons e es ih =>
    obtain ⟨hne, hnd2⟩ := List.nodupKeys_cons.1 hnd
    by_cases hk : e.1 = k
    · subst hk
      have hnone : es.dlookup e.1 = none := List.dlookup_eq_none.2 hne
      rw [List.filter_cons_of_pos (by simp), ih hnd2, hnone]
      obtain ⟨a, b⟩ := e
      simp [List.dlookup_cons_eq]
    · rw [List.filter_cons_of_neg (by simpa using hk), ih hnd2,
        List.dlookup_cons_ne _ _ (fun h => hk h.symm)]

/-- C10. `End` leaves what the channel held in place and appends only `AddDuration` and
`AddCount` commands: for every key, exactly one `AddDuration` command when the key is in
the local duration sums (as the force-closing left them) and none otherwise, exactly one
`AddCount` command when the key is in the local counts and none otherwise, each carrying
the local sum of its key. -/
theorem C10_end_one_command_per_key (s : statSession) (oOpen : List (Entry time.Time))
    (clock : String → time.Time) (oDur : List (Entry time.Duration))
    (oCnt : List (Entry Int)) (ho : s.EndOrders oOpen clock oDur oCnt) :
    (s.End oOpen clock oDur oCnt).stat.cmdCh.take s.stat.cmdCh.length = s.stat.cmdCh ∧
    (∀ c ∈ (s.End oOpen clock oDur oCnt).stat.cmdCh.drop s.stat.cmdCh.length,
      c.CmdType = .cmdAddDuration ∨ c.CmdType = .cmdAddCount) ∧
    (∀ k, ((s.End oOpen clock oDur oCnt).stat.cmdCh.drop s.stat.cmdCh.length).filter
        (fun c => decide (c.CmdType = .cmdAddDuration ∧ c.Key = k)) =
      ((s.End oOpen clock oDur oCnt).duration.lookup k).toList.map (fun d =>
        ({ CmdType := .cmdAddDuration, Key := k, Value := .duration d,
           ResultCh := false } : statCommand))) ∧
    (∀ k, ((s.End oOpen clock oDur oCnt).stat.cmdCh.drop s.stat.cmdCh.length).filter
        (fun c => decide (c.CmdType = .cmdAddCount ∧ c.Key = k)) =
      (s.count.lookup k).toList.map (fun v =>
        ({ CmdType := .cmdAddCount, Key := k, Value := .int64 v,
           ResultCh := false } : statCommand))) := by
  obtain ⟨-, hd, hc⟩ := ho
  rw [End_stat, End_duration]
  simp only [List.take_left, List.drop_left]
  refine ⟨trivial, ?_, ?_, ?_⟩
  · intro c hmem
    rcases List.mem_append.1 hmem with h | h
    · obtain ⟨e, -, rfl⟩ := List.mem_map.1 h
      exact Or.inl rfl
    · obtain ⟨e, -, rfl⟩ := List.mem_map.1 h
      exact Or.inr rfl
  · intro k
    rw [List.filter_append, List.filter_map, List.filter_map]
    have h1 : (oCnt.filter ((fun c : statCommand =>
        decide (c.CmdType = .cmdAddDuration ∧ c.Key = k)) ∘ fun e : Entry Int =>
          ({ CmdType := .cmdAddCount, Key := e.1, Value := .int64 e.2,
             ResultCh := false } : statCommand))) = [] := by
      rw [List.filter_eq_nil_iff]
      intro e _
      simp
    have h2 : (oDur.filter ((fun c : statCommand =>
        decide (c.CmdType = .cmdAddDuration ∧ c.Key = k)) ∘ fun e : Entry time.Duration =>
          ({ CmdType := .cmdAddDuration, Key := e.1, Value := .duration e.2,
             ResultCh := false } : statCommand))) =
        oDur.filter (fun e => decide (e.1 = k)) := by
      congr 1
      funext e
      simp
    rw [h1, h2, filter_key_eq oDur (rangeOrder_nodupKeys hd) k, rangeOrder_dlookup hd k,
      List.map_nil, List.append_nil, List.map_map]
    rfl
  · intro k
    rw [List.filter_append, List.filter_map, List.filter_map]
    have h1 : (oDur.filter ((fun c : statCommand =>
        decide (c.CmdType = .cmdAddCount ∧ c.Key = k)) ∘ fun e : Entry time.Duration =>
          ({ CmdType := .cmdAddDuration, Key := e.1, Value := .duration e.2,
             ResultCh := false } : statCommand))) = [] := by
      rw [List.filter_eq_nil_iff]
      intro e _
      simp
    have h2 : (oCnt.filter ((fun c : statCommand =>
        decide (c.CmdType = .cmdAddCount ∧ c.Key = k)) ∘ fun e : Entry Int =>
          ({ CmdType := .cmdAddCount, Key := e.1, Value := .int64 e.2,
             ResultCh := false } : statCommand))) =
        oCnt.filter (fun e => decide (e.1 = k)) := by
      congr 1
      funext e
      simp
    rw [h1, h2, filter_key_eq oCnt (rangeOrder_nodupKeys hc) k, rangeOrder_dlookup hc k,
      List.map_nil, List.nil_append, List.map_map]
    rfl

/-- Witness of C10: the session holds count 2 for `c`, duration 5 for `a` and an open
measurement on `b` begun at instant 1 and closed by `End` at instant 8; the channel already
held one command. -/
theorem C10_end_one_command_per_key_witness :
    (statSession.End
        { stat := NewStat.AddCount "z" 1
          tmpDurationBegin := (∅ : GoMap time.Time).insert "b" 1
          duration := (∅ : GoMap time.Duration).insert "a" 5
          count := (∅ : GoMap Int).insert "c" 2 }
        [⟨"b", 1⟩] (fun _ => 8) [⟨"a", 5⟩, ⟨"b", 7⟩] [⟨"c", 2⟩]).stat.cmdCh =
      [{ CmdType := .cmdAddCount, Key := "z", Value := .int64 1, ResultCh := false },
       { CmdType := .cmdAddDuration, Key := "a", Value := .duration 5, ResultCh := false },
       { CmdType := .cmdAddDuration, Key := "b", Value := .duration 7, ResultCh := false },
       { CmdType := .cmdAddCount, Key := "c", Value := .int64 2, ResultCh := false }] ∧
    ((statSession.End
        { stat := NewStat.AddCount "z" 1
          tmpDurationBegin := (∅ : GoMap time.Time).insert "b" 1
          duration := (∅ : GoMap time.Duration).insert "a" 5
          count := (∅ : GoMap Int).insert "c" 2 }
        [⟨"b", 1⟩] (fun _ => 8) [⟨"a", 5⟩, ⟨"b", 7⟩] [⟨"c", 2⟩]).stat.cmdCh.drop 1).filter
        (fun c => decide (c.CmdType = .cmdAddDuration ∧ c.Key = "b")) =
      [{ CmdType := .cmdAddDuration, Key := "b", Value := .duration 7, ResultCh := false }] :=
  ⟨rfl, ((C10_end_one_command_per_key
    { stat := NewStat.AddCount "z" 1
      tmpDurationBegin := (∅ : GoMap time.Time).insert "b" 1
      duration := (∅ : GoMap time.Duration).insert "a" 5
      count := (∅ : GoMap Int).insert "c" 2 }
    [⟨"b", 1⟩] (fun _ => 8) [⟨"a", 5⟩, ⟨"b", 7⟩] [⟨"c", 2⟩]
    ⟨by decide, by decide, by decide⟩).2.2.1 "b").trans rfl⟩

/-! ## Measurements in a session -/

theorem session_begin_open (s : statSession) (now : time.Time) (k : String)
    (hk : k ∈ s.tmpDurationBegin) :
    s.DurationBegin now k = .error (.panic ("Key " ++ k ++ " is already in the map")) := by
  obtain ⟨v, hv⟩ := Option.isSome_iff_exists.1 (AList.lookup_isSome.2 hk)
  simp only [statSession.DurationBegin, addTimeToMap, hv]

theorem session_begin_closed (s : statSession) (now : time.Time) (k : String)
    (hk : k ∉ s.tmpDurationBegin) :
    s.DurationBegin now k =
      .ok { s with tmpDurationBegin := s.tmpDurationBegin.insert k now } := by
  have hv := AList.lookup_eq_none.2 hk
  simp only [statSession.DurationBegin, addTimeToMap, hv]

theorem session_end_closed (s : statSession) (now : time.Time) (k : String)
    (hk : k ∉ s.tmpDurationBegin) :
    s.DurationEnd now k = .error (.panic ("Key " ++ k ++ " is not in the map")) := by
  have hv := AList.lookup_eq_none.2 hk
  simp only [statSession.DurationEnd, getDurationFromMap, hv]

theorem session_end_open (s : statSession) (now t0 : time.Time) (k : String)
    (hv : s.tmpDurationBegin.lookup k = some t0) :
    s.DurationEnd now k =
      .ok { s with
        tmpDurationBegin := s.tmpDurationBegin.erase k
        duration := (s.duration.insert k
          (add64 ((s.duration.lookup k).getD 0) (time.Sub now t0))) } := by
  simp only [statSession.DurationEnd, getDurationFromMap, hv, addDurationToMap]

/-- C11. `statSession.DurationBegin(k)` panics exactly when `k` is in the local open map
and otherwise records `k` as open with the clock reading; `statSession.DurationEnd(k)`
panics exactly when `k` is not in the open map and otherwise removes `k` from it and adds
`now.Sub(start)` to the local duration sum of `k` with Go's `+=`, which is that sum plus
`now - start` when nothing overflows. -/
theorem C11_session_begin_end (s : statSession) (now : time.Time) (k : String) :
    ((∃ e, s.DurationBegin now k = .error e) ↔ k ∈ s.tmpDurationBegin) ∧
    ((∃ e, s.DurationEnd now k = .error e) ↔ k ∉ s.tmpDurationBegin) ∧
    (k ∉ s.tmpDurationBegin →
      s.DurationBegin now k =
        .ok { s with tmpDurationBegin := s.tmpDurationBegin.insert k now } ∧
      k ∈ s.tmpDurationBegin.insert k now ∧
      (s.tmpDurationBegin.insert k now).lookup k = some now) ∧
    (∀ t0, s.tmpDurationBegin.lookup k = some t0 →
      s.DurationEnd now k =
        .ok { s with
          tmpDurationBegin := s.tmpDurationBegin.erase k
          duration := (s.duration.insert k
            (add64 ((s.duration.lookup k).getD 0) (time.Sub now t0))) } ∧
      k ∉ s.tmpDurationBegin.erase k ∧
      (s.duration.insert k
        (add64 ((s.duration.lookup k).getD 0) (time.Sub now t0))).lookup k =
          some (add64 ((s.duration.lookup k).getD 0) (time.Sub now t0)) ∧
      (inInt64 (now - t0) → inInt64 ((s.duration.lookup k).getD 0 + (now - t0)) →
        add64 ((s.duration.lookup k).getD 0) (time.Sub now t0) =
          (s.duration.lookup k).getD 0 + (now - t0))) := by
  refine ⟨⟨?_, fun hk => ⟨_, session_begin_open s now k hk⟩⟩,
    ⟨?_, fun hk => ⟨_, session_end_closed s now k hk⟩⟩, ?_, ?_⟩
  · rintro ⟨e, he⟩
    by_contra hk
    rw [session_begin_closed s now k hk] at he
    cases he
  · rintro ⟨e, he⟩ hk
    obtain ⟨v, hv⟩ := Option.isSome_iff_exists.1 (AList.lookup_isSome.2 hk)
    rw [session_end_open s now v k hv] at he
    cases he
  · intro hk
    exact ⟨session_begin_closed s now k hk, (AList.mem_insert _).2 (Or.inl rfl),
      AList.lookup_insert _⟩
  · intro t0 hv
    refine ⟨session_end_open s now t0 k hv, ?_, AList.lookup_insert _, ?_⟩
    · exact AList.lookup_eq_none.1 (AList.lookup_erase k _)
    · intro h1 h2
      rw [time_Sub_of_inInt64 h1, add64, wrap64_of_inInt64 h2]

/-- Witness of C11: a fresh session begins `k` at instant 3 and ends it at instant 10. -/
theorem C11_session_begin_end_witness :
    NewStat.NewSession.DurationBegin 3 "k" =
      .ok { NewStat.NewSession with tmpDurationBegin := (∅ : GoMap time.Time).insert "k" 3 } ∧
    (∃ e, ({ NewStat.NewSession with
        tmpDurationBegin := (∅ : GoMap time.Time).insert "k" 3 } :
          statSession).DurationBegin 4 "k" = .error e) ∧
    ({ NewStat.NewSession with tmpDurationBegin := (∅ : GoMap time.Time).insert "k" 3 } :
        statSession).DurationEnd 10 "k" =
      .ok { NewStat.NewSession with
        tmpDurationBegin := ((∅ : GoMap time.Time).insert "k" 3).erase "k"
        duration := (∅ : GoMap time.Duration).insert "k" 7 } ∧
    (∃ e, NewStat.NewSession.DurationEnd 10 "k" = .error e) :=
  ⟨((C11_session_begin_end NewStat.NewSession 3 "k").2.2.1 (by decide)).1,
    (C11_session_begin_end { NewStat.NewSession with
      tmpDurationBegin := (∅ : GoMap time.Time).insert "k" 3 } 4 "k").1.2 (by decide),
    ((C11_session_begin_end { NewStat.NewSession with
      tmpDurationBegin := (∅ : GoMap time.Time).insert "k" 3 } 10 "k").2.2.2 3 rfl).1,
    (C11_session_begin_end NewStat.NewSession 10 "k").2.1.2 (by decide)⟩

/-- C12 (the code at the failing input). After `begin(k)` at instant 0 and `end(k)` at
instant 5 the session and the aggregator hold the same duration sum, but `k` has left
the session's open map and is still in the aggregator's; a following `begin(k)` succeeds
in the session and makes the worker panic. -/
theorem C12_session_and_aggregator_differ :
    (NewStat.NewSession.calls [.DurationBegin 0 "k", .DurationEnd 5 "k"]).map
        (fun s => (s.tmpDurationBegin.lookup "k", s.duration.lookup "k")) =
      .ok (none, some 5) ∧
    (GoStat.start ((NewStat.DurationBegin 0 "k").DurationEnd "k") [0, 5]).map
        (fun g => (g.tmpDuration.lookup "k", g.durationStat.lookup "k")) =
      .ok (some 0, some 5) ∧
    (NewStat.NewSession.calls
        [.DurationBegin 0 "k", .DurationEnd 5 "k", .DurationBegin 7 "k"]).map
        (fun s => s.tmpDurationBegin.lookup "k") = .ok (some 7) ∧
    GoStat.start (((NewStat.DurationBegin 0 "k").DurationEnd "k").DurationBegin 7 "k")
        [0, 5, 7] = .error (.panic "Duplicate duration start for key k") :=
  ⟨rfl, rfl, rfl, rfl⟩

/-! ## Single commands -/

theorem start_send (g : GoStat) (c : statCommand) (now : time.Time) (hq : g.cmdCh = []) :
    GoStat.start (g.send c) [now] =
      match g.dispatch now c with
      | .error e => .error e
      | .ok (g1, _) => .ok g1 := by
  cases g with
  | mk ds td cs q =>
    simp only at hq
    subst hq
    simp only [GoStat.send, List.nil_append, GoStat.start]

/-- The faults of the worker on the commands of the public API, by the content of
`tmpDuration`: a fault exactly on a `DurationBegin` whose key is in `tmpDuration` and on a
`DurationEnd` whose key is not; no fault on `AddCount`, `AddDuration`, `GetCount` and
`GetDuration`, and the type assertions of the two readers on the reply succeed. The
commands are those the six methods send. -/
theorem dispatch_fault_iff_in_map (g : GoStat) (now : time.Time) :
    (∀ a : apiCall, (∃ e, g.dispatch now a.command = .error e) ↔
      match a with
      | .DurationBegin _ k => k ∈ g.tmpDuration
      | .DurationEnd k => k ∉ g.tmpDuration
      | _ => False) ∧
    (∀ k, ∃ n, g.GetCount now k = .ok n) ∧
    (∀ k, ∃ d, g.GetDuration now k = .ok d) ∧
    (∀ t k, g.DurationBegin t k = g.send (apiCall.DurationBegin t k).command) ∧
    (∀ k, g.DurationEnd k = g.send (apiCall.DurationEnd k).command) ∧
    (∀ k v, g.AddCount k v = g.send (apiCall.AddCount k v).command) ∧
    (∀ k d, g.AddDruation k d = g.send (apiCall.AddDruation k d).command) := by
  refine ⟨?_, fun k => ⟨_, GetCount_eq g now k⟩, fun k => ⟨_, GetDuration_eq g now k⟩,
    fun _ _ => rfl, fun _ => rfl, fun _ _ => rfl, fun _ _ => rfl⟩
  intro a
  cases a with
  | DurationBegin t k =>
    simp only [apiCall.command, GoStat.dispatch, GoStat.cmdDurationBegin]
    cases hl : g.tmpDuration.lookup k with
    | none =>
      have hk : k ∉ g.tmpDuration := AList.lookup_eq_none.1 hl
      simp [Except.map, hk]
    | some t0 =>
      have hk : k ∈ g.tmpDuration := AList.lookup_isSome.1 (by rw [hl]; rfl)
      simp [Except.map, hk]
  | DurationEnd k =>
    simp only [apiCall.command, GoStat.dispatch, GoStat.cmdDurationEnd]
    cases hl : g.tmpDuration.lookup k with
    | none =>
      have hk : k ∉ g.tmpDuration := AList.lookup_eq_none.1 hl
      simp [Except.map, hk]
    | some t0 =>
      have hk : k ∈ g.tmpDuration := AList.lookup_isSome.1 (by rw [hl]; rfl)
      simp [Except.map, hk]
  | AddCount k v => simp [apiCall.command, GoStat.dispatch, GoStat.cmdAddCount, Except.map]
  | AddDruation k d =>
    simp [apiCall.command, GoStat.dispatch, GoStat.cmdAddDuration, Except.map]
  | GetCount k => simp [apiCall.command, GoStat.dispatch, GoStat.cmdGetCount, Except.map]
  | GetDuration k =>
    simp [apiCall.command, GoStat.dispatch, GoStat.cmdGetDuration, Except.map]

/-- C13 (the code at the failing input). After `DurationBegin(k)` at instant 0 and
`DurationEnd(k)` handled at instant 5 no measurement of `k` is open, yet the worker
handles a further `DurationEnd(k)` without a fault (it measures again from instant 0 and
the sum becomes 5 + 7) and panics on a `DurationBegin(k)`; the four other commands of the
public API are handled without a fault there. -/
theorem C13_fault_not_by_open_keys :
    GoStat.start ((NewStat.DurationBegin 0 "k").DurationEnd "k") [0, 5] =
      .ok { NewStat with
        tmpDuration := (∅ : GoMap time.Time).insert "k" 0
        durationStat := (∅ : GoMap time.Duration).insert "k" 5 } ∧
    (GoStat.dispatch
        { NewStat with
          tmpDuration := (∅ : GoMap time.Time).insert "k" 0
          durationStat := (∅ : GoMap time.Duration).insert "k" 5 }
        7 (apiCall.DurationEnd "k").command).map
        (fun p => (p.1.durationStat.lookup "k", p.1.tmpDuration.lookup "k", p.2)) =
      .ok (some 12, some 0, none) ∧
    (GoStat.dispatch
        { NewStat with
          tmpDuration := (∅ : GoMap time.Time).insert "k" 0
          durationStat := (∅ : GoMap time.Duration).insert "k" 5 }
        7 (apiCall.DurationBegin 7 "k").command).map (fun p => p.2) =
      .error (.panic "Duplicate duration start for key k") ∧
    (GoStat.dispatch
        { NewStat with
          tmpDuration := (∅ : GoMap time.Time).insert "k" 0
          durationStat := (∅ : GoMap time.Duration).insert "k" 5 }
        7 (apiCall.AddCount "k" 1).command).map (fun p => p.2) = .ok none ∧
    (GoStat.dispatch
        { NewStat with
          tmpDuration := (∅ : GoMap time.Time).insert "k" 0
          durationStat := (∅ : GoMap time.Duration).insert "k" 5 }
        7 (apiCall.AddDruation "k" 1).command).map (fun p => p.2) = .ok none ∧
    (GoStat.dispatch
        { NewStat with
          tmpDuration := (∅ : GoMap time.Time).insert "k" 0
          durationStat := (∅ : GoMap time.Duration).insert "k" 5 }
        7 (apiCall.GetCount "k").command).map (fun p => p.2) = .ok (some (.int64 0)) ∧
    (GoStat.dispatch
        { NewStat with
          tmpDuration := (∅ : GoMap time.Time).insert "k" 0
          durationStat := (∅ : GoMap time.Duration).insert "k" 5 }
        7 (apiCall.GetDuration "k").command).map (fun p => p.2) =
      .ok (some (.duration 5)) :=
  ⟨rfl, rfl, rfl, rfl, rfl, rfl, rfl⟩

theorem start_AddDruation (g : GoStat) (k : String) (d : time.Duration) (now : time.Time)
    (hq : g.cmdCh = []) :
    GoStat.start (g.AddDruation k d) [now] =
      .ok { g with durationStat :=
        (g.durationStat.insert k (add64 ((g.durationStat.lookup k).getD 0) d)) } := by
  rw [GoStat.AddDruation, start_send g _ now hq]
  simp only [GoStat.dispatch, GoStat.cmdAddDuration, Except.map]

theorem start_AddCount (g : GoStat) (k : String) (n : Int) (now : time.Time)
    (hq : g.cmdCh = []) :
    GoStat.start (g.AddCount k n) [now] =
      .ok { g with countStat :=
        (g.countStat.insert k (add64 ((g.countStat.lookup k).getD 0) n)) } := by
  rw [GoStat.AddCount, start_send g _ now hq]
  simp only [GoStat.dispatch, GoStat.cmdAddCount, Except.map]

/-- C14 (amended). From an idle channel the worker handles `AddDuration(k, d)` without a
fault; afterwards `GetDuration(k)` is the wrapping `int64` sum of its previous value (0 if
absent) and `d`, which is the previous value plus `d` when that fits an `int64`; the
duration sums of the other keys, the count sums and the open map are unchanged. -/
theorem C14_addDuration (g : GoStat) (k : String) (d : time.Duration)
    (nowP now : time.Time) (hq : g.cmdCh = []) :
    ∃ g1, GoStat.start (g.AddDruation k d) [nowP] = .ok g1 ∧
      g1.GetDuration now k = (g.GetDuration now k).map (fun a => add64 a d) ∧
      (∀ a, g.GetDuration now k = .ok a → inInt64 (a + d) →
        g1.GetDuration now k = .ok (a + d)) ∧
      (∀ k2, k2 ≠ k → g1.durationStat.lookup k2 = g.durationStat.lookup k2) ∧
      g1.countStat = g.countStat ∧ g1.tmpDuration = g.tmpDuration := by
  refine ⟨_, start_AddDruation g k d nowP hq, ?_, ?_, ?_, rfl, rfl⟩
  · simp only [GetDuration_eq, Except.map, AList.lookup_insert, Option.getD_some]
  · intro a ha hr
    rw [GetDuration_eq] at ha
    simp only [Except.ok.injEq] at ha
    simp only [GetDuration_eq, AList.lookup_insert, Option.getD_some, ha, add64,
      wrap64_of_inInt64 hr]
  · intro k2 hne
    exact AList.lookup_insert_ne hne

/-- Witness of C14 (amended): `AddDuration(k, 5)` on a previous sum of 7. -/
theorem C14_addDuration_witness :
    ∃ g1, GoStat.start
        (({ NewStat with durationStat := (∅ : GoMap time.Duration).insert "k" 7 } :
          GoStat).AddDruation "k" 5) [0] = .ok g1 ∧
      g1.GetDuration 0 "k" = .ok 12 := by
  obtain ⟨g1, h1, -, h3, -⟩ := C14_addDuration
    { NewStat with durationStat := (∅ : GoMap time.Duration).insert "k" 7 } "k" 5 0 0 rfl
  exact ⟨g1, h1, h3 7 rfl (by decide)⟩

/-- C14 (as stated) fails: after `AddDuration(k, 9223372036854775807)` on a fresh
aggregator `GetDuration(k)` is `9223372036854775807`, and after a further
`AddDuration(k, 1)` it is `-9223372036854775808`, not the previous sum plus 1. -/
theorem C14_counterexample :
    (GoStat.start (NewStat.AddDruation "k" 9223372036854775807) [0] >>=
      fun g => g.GetDuration 0 "k") = .ok 9223372036854775807 ∧
    (GoStat.start ((NewStat.AddDruation "k" 9223372036854775807).AddDruation "k" 1) [0, 0] >>=
      fun g => g.GetDuration 0 "k") = .ok (-9223372036854775808) ∧
    (-9223372036854775808 : Int) ≠ 9223372036854775807 + 1 :=
  ⟨rfl, rfl, by decide⟩

/-- C18. From an idle channel the worker handles `AddCount(k, n)` without a fault and
changes only the count entry of `k`: the counts of the other keys, the duration sums and
the open map are unchanged. -/
theorem C18_addCount_frame (g : GoStat) (k : String) (n : Int) (nowP : time.Time)
    (hq : g.cmdCh = []) :
    ∃ g1, GoStat.start (g.AddCount k n) [nowP] = .ok g1 ∧
      (∀ k2, k2 ≠ k → g1.countStat.lookup k2 = g.countStat.lookup k2) ∧
      g1.durationStat = g.durationStat ∧ g1.tmpDuration = g.tmpDuration ∧
      g1.cmdCh = [] :=
  ⟨_, start_AddCount g k n nowP hq, fun _ hne => AList.lookup_insert_ne hne, rfl, rfl, hq⟩

/-- Witness of C18: `AddCount(a, 2)` in a state that holds a count for `b`, a duration
sum and an open measurement. -/
theorem C18_addCount_frame_witness :
    ∃ g1, GoStat.start
        (({ NewStat with
            countStat := (∅ : GoMap Int).insert "b" 4
            durationStat := (∅ : GoMap time.Duration).insert "a" 7
            tmpDuration := (∅ : GoMap time.Time).insert "a" 1 } : GoStat).AddCount "a" 2)
        [0] = .ok g1 ∧
      g1.countStat.lookup "b" = some 4 ∧
      g1.durationStat = (∅ : GoMap time.Duration).insert "a" 7 ∧
      g1.tmpDuration = (∅ : GoMap time.Time).insert "a" 1 := by
  obtain ⟨g1, h1, h2, h3, h4, -⟩ := C18_addCount_frame
    { NewStat with
      countStat := (∅ : GoMap Int).insert "b" 4
      durationStat := (∅ : GoMap time.Duration).insert "a" 7
      tmpDuration := (∅ : GoMap time.Time).insert "a" 1 } "a" 2 0 rfl
  exact ⟨g1, h1, (h2 "b" (by decide)).trans rfl, h3, h4⟩

/-- C19. In every state the worker answers the `GetCount` and `GetDuration` commands of
the public API, and skips a command of kind `cmdEndSession`, leaving the state exactly as
it was (a key absent from a map stays absent); so a read repeated on the state the first
read left returns the same value. -/
theorem C19_reads_are_pure (g : GoStat) (now now2 : time.Time) (k : String) :
    g.dispatch now (apiCall.GetCount k).command =
      .ok (g, some (.int64 ((g.countStat.lookup k).getD 0))) ∧
    g.dispatch now (apiCall.GetDuration k).command =
      .ok (g, some (.duration ((g.durationStat.lookup k).getD 0))) ∧
    (∀ (key : String) (v : AnyValue) (ch : Bool),
      g.dispatch now { CmdType := .cmdEndSession, Key := key, Value := v, ResultCh := ch } =
        .ok (g, none)) ∧
    (∀ g1 r, g.dispatch now (apiCall.GetCount k).command = .ok (g1, r) →
      g1 = g ∧ g1.GetCount now2 k = g.GetCount now k) ∧
    (∀ g1 r, g.dispatch now (apiCall.GetDuration k).command = .ok (g1, r) →
      g1 = g ∧ g1.GetDuration now2 k = g.GetDuration now k) := by
  have h1 : g.dispatch now (apiCall.GetCount k).command =
      .ok (g, some (.int64 ((g.countStat.lookup k).getD 0))) := rfl
  have h2 : g.dispatch now (apiCall.GetDuration k).command =
      .ok (g, some (.duration ((g.durationStat.lookup k).getD 0))) := rfl
  refine ⟨h1, h2, fun _ _ _ => rfl, ?_, ?_⟩
  · intro g1 r h
    rw [h1] at h
    cases h
    exact ⟨rfl, by rw [GetCount_eq, GetCount_eq]⟩
  · intro g1 r h
    rw [h2] at h
    cases h
    exact ⟨rfl, by rw [GetDuration_eq, GetDuration_eq]⟩

/-- Witness of C19: two reads of an unknown key on a fresh aggregator. -/
theorem C19_reads_are_pure_witness :
    NewStat.dispatch 0 (apiCall.GetCount "k").command = .ok (NewStat, some (.int64 0)) ∧
    NewStat.countStat.lookup "k" = none ∧
    NewStat.GetCount 1 "k" = NewStat.GetCount 0 "k" :=
  ⟨(C19_reads_are_pure NewStat 0 1 "k").1, rfl,
    ((C19_reads_are_pure NewStat 0 1 "k").2.2.2.1 NewStat _ rfl).2⟩

/-! ## Additive writes -/

theorem wrap64_add_wrap64 (a b : Int) : wrap64 (a + wrap64 b) = wrap64 (a + b) := by
  unfold wrap64
  omega

theorem accum_step (o : Option Int) (v : Int) (vs : List Int) :
    accum (some (add64 (o.getD 0) v)) vs = accum o (v :: vs) := by
  cases vs with
  | nil => simp [accum, add64]
  | cons w ws =>
    simp only [accum, Option.getD_some, List.sum_cons, add64, wrap64_wrap64_add, add_assoc]

theorem accum_perm (o : Option Int) {vs1 vs2 : List Int} (h : vs1.Perm vs2) :
    accum o vs1 = accum o vs2 := by
  cases vs1 with
  | nil => rw [← h.nil_eq]
  | cons v vs =>
    cases vs2 with
    | nil => exact absurd h.eq_nil (by simp)
    | cons w ws => simp only [accum, h.sum_eq]

theorem addDurationValues_cons (k : String) (c : statCommand) (cs : List statCommand) :
    addDurationValues k (c :: cs) = addDurationValues k [c] ++ addDurationValues k cs := by
  unfold addDurationValues
  rw [← List.filterMap_append]
  rfl

theorem accum_append_single (o : Option Int) (a vs : List Int) (ha : a.length ≤ 1)
    (o1 : Option Int) (h1 : o1 = accum o a) : accum o1 vs = accum o (a ++ vs) := by
  subst h1
  match a, ha with
  | [], _ => rfl
  | [v], _ =>
    have hv : accum o [v] = some (add64 (o.getD 0) v) := by simp [accum, add64]
    rw [List.singleton_append, hv, accum_step]

/-- An additive write does not fault; its effect on every count and duration entry. -/
theorem dispatch_additive (g : GoStat) (now : time.Time) (c : statCommand)
    (h : isAdditiveWrite c = true) :
    ∃ g1, g.dispatch now c = .ok (g1, none) ∧
      (∀ k, g1.countStat.lookup k =
        accum (g.countStat.lookup k) (addCountValues k [c])) ∧
      (∀ k, g1.durationStat.lookup k =
        accum (g.durationStat.lookup k) (addDurationValues k [c])) ∧
      g1.tmpDuration = g.tmpDuration := by
  obtain ⟨ty, key, val, ch⟩ := c
  cases ty <;> cases val <;> simp only [isAdditiveWrite] at h <;> try cases h
  · refine ⟨_, rfl, ?_, ?_, rfl⟩
    · intro k
      by_cases hk : key = k
      · subst hk
        simp [addCountValues, accum, AList.lookup_insert, add64]
      · have hk2 : k ≠ key := fun e => hk e.symm
        simp [addCountValues, accum, hk, AList.lookup_insert_ne hk2]
    · intro k
      simp [addDurationValues, accum]
  · refine ⟨_, rfl, ?_, ?_, rfl⟩
    · intro k
      simp [addCountValues, accum]
    · intro k
      by_cases hk : key = k
      · subst hk
        simp [addDurationValues, accum, AList.lookup_insert, add64]
      · have hk2 : k ≠ key := fun e => hk e.symm
        simp [addDurationValues, accum, hk, AList.lookup_insert_ne hk2]

theorem addCountValues_single_length (k : String) (c : statCommand) :
    (addCountValues k [c]).length ≤ 1 := by
  unfold addCountValues
  exact (List.length_filterMap_le _ _).trans (by simp)

theorem addDurationValues_single_length (k : String) (c : statCommand) :
    (addDurationValues k [c]).length ≤ 1 := by
  unfold addDurationValues
  exact (List.length_filterMap_le _ _).trans (by simp)

/-- A sequence of additive writes is handled without a fault; every count and duration
entry ends as `accum` of the values written to its key. -/
theorem run_additive (steps : List (time.Time × statCommand)) (g : GoStat)
    (h : ∀ st ∈ steps, isAdditiveWrite st.2 = true) :
    ∃ g1, g.run steps = .ok g1 ∧
      (∀ k, g1.countStat.lookup k =
        accum (g.countStat.lookup k) (addCountValues k (steps.map Prod.snd))) ∧
      (∀ k, g1.durationStat.lookup k =
        accum (g.durationStat.lookup k) (addDurationValues k (steps.map Prod.snd))) ∧
      g1.tmpDuration = g.tmpDuration := by
  induction steps generalizing g with
  | nil => exact ⟨g, rfl, fun _ => rfl, fun _ => rfl, rfl⟩
  | cons st rest ih =>
    obtain ⟨now, c⟩ := st
    obtain ⟨g2, hd, hc2, hd2, ht2⟩ := dispatch_additive g now c (h (now, c) (by simp))
    obtain ⟨g1, hr, hc1, hd1, ht1⟩ := ih g2 (fun st hst => h st (List.mem_cons_of_mem _ hst))
    refine ⟨g1, ?_, ?_, ?_, ht1.trans ht2⟩
    · simp only [GoStat.run, hd]
      exact hr
    · intro k
      rw [hc1 k, List.map_cons, addCountValues_cons]
      exact accum_append_single _ _ _ (addCountValues_single_length k c) _ (hc2 k)
    · intro k
      rw [hd1 k, List.map_cons, addDurationValues_cons]
      exact accum_append_single _ _ _ (addDurationValues_single_length k c) _ (hd2 k)

/-- C17. For every state and every list of additive writes (`AddCount` and `AddDuration`
commands as the public API builds them), the worker handles the list and any permutation
of it without a fault, and both leave the same count sum and the same duration sum for
every key. -/
theorem C17_order_independent (g : GoStat) (cmds1 cmds2 : List statCommand)
    (nows1 nows2 : List time.Time) (now : time.Time) (hp : cmds1.Perm cmds2)
    (ha : ∀ c ∈ cmds1, isAdditiveWrite c = true)
    (hl1 : cmds1.length ≤ nows1.length) (hl2 : cmds2.length ≤ nows2.length) :
    ∃ g1 g2, GoStat.start { g with cmdCh := cmds1 } nows1 = .ok g1 ∧
      GoStat.start { g with cmdCh := cmds2 } nows2 = .ok g2 ∧
      ∀ k, g1.countStat.lookup k = g2.countStat.lookup k ∧
        g1.durationStat.lookup k = g2.durationStat.lookup k ∧
        g1.GetCount now k = g2.GetCount now k ∧
        g1.GetDuration now k = g2.GetDuration now k := by
  have hs1 := List.map_snd_zip nows1 cmds1 hl1
  have hs2 := List.map_snd_zip nows2 cmds2 hl2
  obtain ⟨g1, hr1, hc1, hd1, -⟩ := run_additive (nows1.zip cmds1) { g with cmdCh := [] }
    (fun st hst => ha st.2 (by rw [← hs1]; exact List.mem_map_of_mem _ hst))
  obtain ⟨g2, hr2, hc2, hd2, -⟩ := run_additive (nows2.zip cmds2) { g with cmdCh := [] }
    (fun st hst => ha st.2 (hp.mem_iff.2 (by rw [← hs2]; exact List.mem_map_of_mem _ hst)))
  rw [hs1] at hc1 hd1
  rw [hs2] at hc2 hd2
  refine ⟨g1, g2, by rw [start_eq_run _ g nows1 hl1]; exact hr1,
    by rw [start_eq_run _ g nows2 hl2]; exact hr2, ?_⟩
  intro k
  have hc : g1.countStat.lookup k = g2.countStat.lookup k := by
    rw [hc1 k, hc2 k]
    exact accum_perm _ (hp.filterMap _)
  have hd : g1.durationStat.lookup k = g2.durationStat.lookup k := by
    rw [hd1 k, hd2 k]
    exact accum_perm _ (hp.filterMap _)
  exact ⟨hc, hd, by rw [GetCount_eq, GetCount_eq, hc], by rw [GetDuration_eq, GetDuration_eq, hd]⟩

/-- Witness of C17: three additive writes and a permutation of them, on a state that
already holds a count for `a`. -/
theorem C17_order_independent_witness :
    ∃ g1 g2,
      GoStat.start { ({ NewStat with countStat := (∅ : GoMap Int).insert "a" 1 } : GoStat) with
        cmdCh := [(apiCall.AddCount "a" 2).command, (apiCall.AddDruation "b" 5).command,
          (apiCall.AddCount "a" 3).command] } [0, 0, 0] = .ok g1 ∧
      GoStat.start { ({ NewStat with countStat := (∅ : GoMap Int).insert "a" 1 } : GoStat) with
        cmdCh := [(apiCall.AddCount "a" 3).command, (apiCall.AddCount "a" 2).command,
          (apiCall.AddDruation "b" 5).command] } [1, 2, 3] = .ok g2 ∧
      g1.GetCount 0 "a" = g2.GetCount 0 "a" ∧
      g1.GetDuration 0 "b" = g2.GetDuration 0 "b" := by
  obtain ⟨g1, g2, h1, h2, h3⟩ := C17_order_independent
    { NewStat with countStat := (∅ : GoMap Int).insert "a" 1 }
    [(apiCall.AddCount "a" 2).command, (apiCall.AddDruation "b" 5).command,
      (apiCall.AddCount "a" 3).command]
    [(apiCall.AddCount "a" 3).command, (apiCall.AddCount "a" 2).command,
      (apiCall.AddDruation "b" 5).command]
    [0, 0, 0] [1, 2, 3] 0 (by decide) (by decide) (by decide) (by decide)
  exact ⟨g1, g2, h1, h2, (h3 "a").2.2.1, (h3 "b").2.2.2⟩

/-! ## Batching through a session -/

theorem foldl_insert_add_lookup (es : List (Entry Int)) (m : GoMap Int) (k : String) :
    (es.foldl (fun a e => a.insert e.1 (add64 ((a.lookup e.1).getD 0) e.2)) m).lookup k =
      accum (m.lookup k) ((es.filter (fun e => decide (e.1 = k))).map (fun e => e.2)) := by
  induction es generalizing m with
  | nil => rfl
  | cons e es ih =>
    rw [List.foldl_cons, ih]
    by_cases hk : e.1 = k
    · subst hk
      rw [List.filter_cons_of_pos (by simp), List.map_cons, AList.lookup_insert, accum_step]
    · rw [List.filter_cons_of_neg (by simpa using hk),
        AList.lookup_insert_ne (fun h => hk h.symm)]

theorem foldl_session_AddCount (es : List (Entry Int)) (s : statSession) :
    es.foldl (fun s e => s.AddCount e.1 e.2) s =
      { s with count :=
        (es.foldl (fun a e => a.insert e.1 (add64 ((a.lookup e.1).getD 0) e.2)) s.count) } := by
  induction es generalizing s with
  | nil => rfl
  | cons e es ih =>
    rw [List.foldl_cons, ih]
    simp only [statSession.AddCount, addCountToMap, List.foldl_cons]

/-- C16. From an idle channel, recording a sequence of count events in a fresh session
and ending it, and sending the same events with `GoStat.AddCount`, are both handled by the
worker without a fault and leave the same count for every key (both with wrapping `int64`
additions) and the same duration sums. -/
theorem C16_session_batching (g : GoStat) (events : List (Entry Int))
    (oOpen : List (Entry time.Time)) (clock : String → time.Time)
    (oDur : List (Entry time.Duration)) (oCnt : List (Entry Int))
    (nows1 nows2 : List time.Time) (now : time.Time) (hq : g.cmdCh = [])
    (ho : (events.foldl (fun s e => s.AddCount e.1 e.2) g.NewSession).EndOrders
      oOpen clock oDur oCnt)
    (hl1 : ((events.foldl (fun s e => s.AddCount e.1 e.2) g.NewSession).End
      oOpen clock oDur oCnt).stat.cmdCh.length ≤ nows1.length)
    (hl2 : events.length ≤ nows2.length) :
    ∃ g1 g2,
      GoStat.start ((events.foldl (fun s e => s.AddCount e.1 e.2) g.NewSession).End
        oOpen clock oDur oCnt).stat nows1 = .ok g1 ∧
      GoStat.start (events.foldl (fun g e => g.AddCount e.1 e.2) g) nows2 = .ok g2 ∧
      (∀ k, g1.countStat.lookup k = g2.countStat.lookup k ∧
        g1.GetCount now k = g2.GetCount now k) ∧
      g1.durationStat = g2.durationStat := by
  have hs := foldl_session_AddCount events g.NewSession
  generalize events.foldl (fun s e => s.AddCount e.1 e.2) g.NewSession = S at ho hl1 hs ⊢
  have hstat : S.stat = g := by rw [hs]; rfl
  have hcount : S.count =
      events.foldl (fun a e => a.insert e.1 (add64 ((a.lookup e.1).getD 0) e.2))
        (∅ : GoMap Int) := by rw [hs]; rfl
  have hdm : S.duration = (∅ : GoMap time.Duration) := by rw [hs]; rfl
  have hop : S.tmpDurationBegin = (∅ : GoMap time.Time) := by rw [hs]; rfl
  clear hs
  obtain ⟨ho1, ho2, ho3⟩ := ho
  have hoOpen : oOpen = [] := by
    rw [rangeOrder, hop] at ho1
    exact List.Perm.eq_nil ho1
  subst hoOpen
  have hdur : oDur = [] := by
    rw [rangeOrder] at ho2
    simp only [statSession.finishDurations, List.foldl_nil, hdm] at ho2
    exact List.Perm.eq_nil ho2
  subst hdur
  have h1 := start_End S [] clock [] oCnt nows1 (by rw [hstat]; exact hq) hl1
  rw [hstat] at h1
  simp only [List.foldl_nil] at h1
  have hl2b : (events.map (fun e =>
      ({ CmdType := .cmdAddCount, Key := e.1, Value := .int64 e.2,
         ResultCh := false } : statCommand))).length ≤ nows2.length := by
    rw [List.length_map]
    exact hl2
  have h2 : GoStat.start (events.foldl (fun g e => g.AddCount e.1 e.2) g) nows2 =
      .ok { g with countStat :=
        (events.foldl (fun a e => a.insert e.1 (add64 ((a.lookup e.1).getD 0) e.2))
          g.countStat), cmdCh := [] } := by
    rw [foldl_AddCount, hq, List.nil_append, start_eq_run _ g nows2 hl2b,
      run_AddCount_cmds events _ _ (List.map_snd_zip nows2 _ hl2b)]
  refine ⟨_, _, h1, h2, ?_, rfl⟩
  intro k
  have hlook : (oCnt.foldl (fun a e => a.insert e.1 (add64 ((a.lookup e.1).getD 0) e.2))
        g.countStat).lookup k =
      (events.foldl (fun a e => a.insert e.1 (add64 ((a.lookup e.1).getD 0) e.2))
        g.countStat).lookup k := by
    rw [flushed_lookup oCnt g.countStat S.count ho3 k,
      foldl_insert_add_lookup events g.countStat k, hcount,
      foldl_insert_add_lookup events ∅ k, AList.lookup_empty]
    cases ((events.filter (fun e => decide (e.1 = k))).map (fun e => e.2)) with
    | nil => rfl
    | cons v vs =>
      simp only [accum, Option.getD_none, add64, wrap64_add_wrap64, zero_add]
  refine ⟨hlook, ?_⟩
  rw [GetCount_eq, GetCount_eq]
  exact congrArg (fun o : Option Int => (Except.ok (o.getD 0) : Except Fault Int)) hlook

/-- Witness of C16: the events `(a, 2)`, `(b, 5)`, `(a, 3)` on an aggregator that holds
count 1 for `a`; `End` visits the local counts in the order `b`, `a`. -/
theorem C16_session_batching_witness :
    ∃ g1 g2,
      GoStat.start (statSession.End
        (([⟨"a", 2⟩, ⟨"b", 5⟩, ⟨"a", 3⟩] : List (Entry Int)).foldl
          (fun s e => s.AddCount e.1 e.2)
          ({ NewStat with countStat := (∅ : GoMap Int).insert "a" 1 } : GoStat).NewSession)
        [] (fun _ => 0) [] [⟨"b", 5⟩, ⟨"a", 5⟩]).stat [0, 0] = .ok g1 ∧
      GoStat.start (([⟨"a", 2⟩, ⟨"b", 5⟩, ⟨"a", 3⟩] : List (Entry Int)).foldl
          (fun g e => g.AddCount e.1 e.2)
          ({ NewStat with countStat := (∅ : GoMap Int).insert "a" 1 } : GoStat))
        [0, 0, 0] = .ok g2 ∧
      g1.countStat.lookup "a" = g2.countStat.lookup "a" ∧
      g2.countStat.lookup "a" = some 6 := by
  obtain ⟨g1, g2, h1, h2, h3, -⟩ := C16_session_batching
    { NewStat with countStat := (∅ : GoMap Int).insert "a" 1 }
    [⟨"a", 2⟩, ⟨"b", 5⟩, ⟨"a", 3⟩] [] (fun _ => 0) [] [⟨"b", 5⟩, ⟨"a", 5⟩]
    [0, 0] [0, 0, 0] 0 rfl ⟨by decide, by decide, by decide⟩ (by decide) (by decide)
  refine ⟨g1, g2, h1, h2, (h3 "a").1, ?_⟩
  have h4 : GoStat.start (([⟨"a", 2⟩, ⟨"b", 5⟩, ⟨"a", 3⟩] : List (Entry Int)).foldl
      (fun g e => g.AddCount e.1 e.2)
      ({ NewStat with countStat := (∅ : GoMap Int).insert "a" 1 } : GoStat)) [0, 0, 0] =
      .ok { NewStat with countStat :=
        ((∅ : GoMap Int).insert "a" 1 |>.insert "a" 3 |>.insert "b" 5 |>.insert "a" 6) } := rfl
  rw [h4] at h2
  cases h2
  rfl

/-! ## Concurrent producers -/

theorem Interleaving.perm {α : Type} {seqs : List (List α)} {l : List α}
    (h : Interleaving seqs l) : l.Perm seqs.flatten := by
  induction h with
  | done seqs hnil =>
    rw [List.flatten_eq_nil_iff.2 hnil]
  | step pre post x s l _ ih =>
    rw [List.flatten_append, List.flatten_cons] at ih ⊢
    rw [List.cons_append]
    exact (List.Perm.cons x ih).trans List.perm_middle.symm

theorem Interleaving.nil_cons {α : Type} {seqs : List (List α)} {l : List α}
    (h : Interleaving seqs l) : Interleaving ([] :: seqs) l := by
  induction h with
  | done seqs hnil =>
    refine Interleaving.done _ ?_
    intro s hs
    rcases List.mem_cons.1 hs with h | h
    · exact h
    · exact hnil s h
  | step pre post x s l _ ih =>
    exact Interleaving.step ([] :: pre) post x s l ih

/-- Sending the sequences one after the other is one of the interleavings. -/
theorem Interleaving.flatten {α : Type} (seqs : List (List α)) :
    Interleaving seqs seqs.flatten := by
  induction seqs with
  | nil => exact Interleaving.done [] (fun _ h => absurd h (List.not_mem_nil _))
  | cons s rest ih =>
    rw [List.flatten_cons]
    induction s with
    | nil => exact Interleaving.nil_cons ih
    | cons x s ihs => exact Interleaving.step [] rest x s _ ihs

theorem start_replicate_AddCount (n : Nat) (k : String) (nows : List time.Time)
    (now : time.Time) (hl : n ≤ nows.length) :
    ∃ g, GoStat.start
        { NewStat with cmdCh := List.replicate n (apiCall.AddCount k 1).command } nows = .ok g ∧
      g.GetCount now k = .ok (wrap64 n) := by
  have hl2 : (List.replicate n (apiCall.AddCount k 1).command).length ≤ nows.length := by
    rw [List.length_replicate]
    exact hl
  have hs := List.map_snd_zip nows _ hl2
  obtain ⟨g, hr, -, -, -⟩ := run_additive
    (nows.zip (List.replicate n (apiCall.AddCount k 1).command)) { NewStat with cmdCh := [] }
    (fun st hst => by
      have hm : st.2 ∈ List.replicate n (apiCall.AddCount k 1).command := by
        rw [← hs]
        exact List.mem_map_of_mem _ hst
      rw [List.eq_of_mem_replicate hm]
      rfl)
  refine ⟨g, by rw [start_eq_run _ NewStat nows hl2]; exact hr, ?_⟩
  have hc := run_count hr k
  rw [hs] at hc
  have hv : addCountValues k (List.replicate n (apiCall.AddCount k 1).command) =
      List.replicate n 1 := by
    unfold addCountValues
    exact List.filterMap_replicate_of_some (by simp [apiCall.command])
  have h0 : (({ NewStat with cmdCh := [] } : GoStat).countStat.lookup k).getD 0 = 0 := rfl
  rw [hv, h0, foldl_add64 _ 0 rfl, zero_add, List.sum_replicate, nsmul_one] at hc
  rw [GetCount_eq, hc]

/-- C15 (amended). For all `N` and `M` and every interleaving of `N` producer sequences
of `M` commands `AddCount(k, 1)` into the channel of a fresh aggregator, the worker
handles them without a fault and a `GetCount(k)` handled after them returns `N * M`
reduced to `int64` by two's-complement wrap-around, which is exactly `N * M` when
`N * M` is at most `9223372036854775807`. -/
theorem C15_interleaved_increments (N M : Nat) (k : String) (cmds : List statCommand)
    (nows : List time.Time) (now : time.Time)
    (hi : Interleaving (List.replicate N (List.replicate M (apiCall.AddCount k 1).command))
      cmds)
    (hl : cmds.length ≤ nows.length) :
    ∃ g, GoStat.start { NewStat with cmdCh := cmds } nows = .ok g ∧
      g.GetCount now k = .ok (wrap64 ((N * M : Nat) : Int)) ∧
      (((N * M : Nat) : Int) ≤ maxInt64 → g.GetCount now k = .ok ((N * M : Nat) : Int)) := by
  have hp := hi.perm
  rw [List.flatten_replicate_replicate] at hp
  have hc : cmds = List.replicate (N * M) (apiCall.AddCount k 1).command := by
    rw [List.eq_replicate_iff]
    refine ⟨by rw [hp.length_eq, List.length_replicate], ?_⟩
    intro c hc
    exact List.eq_of_mem_replicate (hp.mem_iff.1 hc)
  subst hc
  rw [List.length_replicate] at hl
  obtain ⟨g, h1, h2⟩ := start_replicate_AddCount (N * M) k nows now hl
  refine ⟨g, h1, h2, ?_⟩
  intro hle
  rw [h2, wrap64_of_inInt64]
  exact ⟨by unfold minInt64; omega, hle⟩

/-- Witness of C15 (amended): two producers of two increments each, interleaved as first,
second, second, first. -/
theorem C15_interleaved_increments_witness :
    Interleaving
      (List.replicate 2 (List.replicate 2 (apiCall.AddCount "k" 1).command))
      [(apiCall.AddCount "k" 1).command, (apiCall.AddCount "k" 1).command,
        (apiCall.AddCount "k" 1).command, (apiCall.AddCount "k" 1).command] ∧
    ∃ g, GoStat.start
        { NewStat with cmdCh :=
          [(apiCall.AddCount "k" 1).command, (apiCall.AddCount "k" 1).command,
            (apiCall.AddCount "k" 1).command, (apiCall.AddCount "k" 1).command] }
        [0, 0, 0, 0] = .ok g ∧
      g.GetCount 0 "k" = .ok 4 := by
  have hi : Interleaving
      (List.replicate 2 (List.replicate 2 (apiCall.AddCount "k" 1).command))
      [(apiCall.AddCount "k" 1).command, (apiCall.AddCount "k" 1).command,
        (apiCall.AddCount "k" 1).command, (apiCall.AddCount "k" 1).command] :=
    Interleaving.step [] [[_, _]] _ [_] _
      (Interleaving.step [[_]] [] _ [_] _
        (Interleaving.step [[_]] [] _ [] _
          (Interleaving.step [] [[]] _ [] _
            (Interleaving.done _ (by decide)))))
  obtain ⟨g, h1, -, h3⟩ := C15_interleaved_increments 2 2 "k" _ [0, 0, 0, 0] 0 hi (by decide)
  exact ⟨hi, g, h1, h3 (by decide)⟩

/-- C15 (as stated) fails: with `N = 4294967296` producers of `M = 2147483648` increments
each, sent one producer after the other, the worker handles `9223372036854775808`
commands `AddCount(k, 1)` and the following `GetCount(k)` returns `-9223372036854775808`,
not `N * M`. -/
theorem C15_counterexample :
    Interleaving
      (List.replicate 4294967296
        (List.replicate 2147483648 (apiCall.AddCount "k" 1).command))
      (List.replicate (4294967296 * 2147483648) (apiCall.AddCount "k" 1).command) ∧
    (∃ g, GoStat.start
        { NewStat with cmdCh :=
          List.replicate (4294967296 * 2147483648) (apiCall.AddCount "k" 1).command }
        (List.replicate (4294967296 * 2147483648) 0) = .ok g ∧
      g.GetCount 0 "k" = .ok (-9223372036854775808)) ∧
    (-9223372036854775808 : Int) ≠ 4294967296 * 2147483648 := by
  refine ⟨?_, ?_, by decide⟩
  · have h := Interleaving.flatten
      (List.replicate 4294967296
        (List.replicate 2147483648 (apiCall.AddCount "k" 1).command))
    rw [List.flatten_replicate_replicate] at h
    exact h
  · obtain ⟨g, h1, h2⟩ := start_replicate_AddCount (4294967296 * 2147483648) "k"
      (List.replicate (4294967296 * 2147483648) 0) 0
      (le_of_eq (List.length_replicate _ _).symm)
    refine ⟨g, h1, h2.trans ?_⟩
    have hw : wrap64 ((4294967296 * 2147483648 : Nat) : Int) = -9223372036854775808 := by
      decide
    rw [hw]

end gostat
